import Mathlib

/-
  Verification of the record-routing, attribute-mapping and typed-serialization
  engine of something-to-xes.py (event-log-utilities).

  The Python source is shallowly embedded: Python dicts become association
  lists, templates ("%(field)s" strings) become token lists, exceptions become
  Except/Option values.  The script is Python 2: `unicode`, `dict.keys() +
  dict.keys()` and integer `/` semantics all pin the interpreter, and the
  embedding follows CPython 2.7 semantics where they matter (string hashing and
  dict iteration order, str.strip/lower, int() parsing, timedelta behaviour).
-/

namespace SomethingToXes

/-- An XES attribute name as produced by raw_name_to_name: an optional
namespace part and a local name. -/
abbrev AttrName := Option String × String

/-- A flat input record: an association list from raw field name to raw string
value (a Python dict in the source; keys are unique, values are the strings
the external XML/CSV readers produce). -/
abbrev Record := List (String × String)

/-- First-match association-list lookup (Python dict lookup; dicts in the
source have unique keys, so first match is the match). -/
def alookup {α β : Type} [DecidableEq α] : List (α × β) → α → Option β
  | [], _ => none
  | (k, v) :: rest, k0 => if k = k0 then some v else alookup rest k0

/-- Replace the value of the first entry holding the key (Python dict
assignment to an existing key). -/
def aupdate {α β : Type} [DecidableEq α] : List (α × β) → α → β → List (α × β)
  | [], _, _ => []
  | (k, v) :: rest, k0, v0 =>
      if k = k0 then (k, v0) :: rest else (k, v) :: aupdate rest k0 v0

/-- Python dict build / assignment: overwrite the existing entry, else append.
Used for every dict the source fills one key at a time. -/
def dinsert {α β : Type} [DecidableEq α] (d : List (α × β)) (k : α) (v : β) :
    List (α × β) :=
  match alookup d k with
  | some _ => aupdate d k v
  | none => d ++ [(k, v)]

/-- One token of a mapping template.  The source's templates are Python
format strings built of literal text and "%(field)s" references; evaluating
one against a record dict raises KeyError exactly when a referenced field is
absent. -/
inductive Tok where
  | lit (s : String)
  | fld (f : String)
deriving DecidableEq, Repr

/-- A mapping template (the VALUE side of an event-attr or trace-attr
option pair), as a token list. -/
abbrev Template := List Tok

/-- Evaluate a template against a record: `value % d` in the source.  Returns
none (KeyError) exactly when a referenced field is absent from the record.
The empty template always evaluates to the empty string. -/
def evalTemplate : Template → Record → Option String
  | [], _ => some ""
  | Tok.lit s :: rest, e => (evalTemplate rest e).map (fun r => s ++ r)
  | Tok.fld f :: rest, e =>
      match alookup e f with
      | none => none
      | some v => (evalTemplate rest e).map (fun r => v ++ r)

/-- Python str.isspace characters stripped by str.strip() with no argument. -/
def pySpace (c : Char) : Bool :=
  c = ' ' || c = '\t' || c = '\n' || c = '\r' || c = '\x0b' || c = '\x0c'

/-- Python str.strip(): drop whitespace from both ends (byte-level / ASCII,
as Python 2 str.strip does). -/
def pyStripChars (l : List Char) : List Char :=
  ((l.dropWhile pySpace).reverse.dropWhile pySpace).reverse

/-- Python 2 str.lower(): ASCII lowercase. -/
def pyLowerChar (c : Char) : Char :=
  if 'A' ≤ c && c ≤ 'Z' then Char.ofNat (c.toNat + 32) else c

/-- str.strip() on a Lean string. -/
def pyStrip (s : String) : String := String.mk (pyStripChars s.data)

/-- str.lower() on a Lean string. -/
def pyLowerStr (s : String) : String := String.mk (s.data.map pyLowerChar)

/-- One typed XES output attribute element: its element tag ("string", "int",
"date", ...), its key attribute and its value attribute. -/
structure XesAttr where
  tag : String
  key : String
  value : String
deriving DecidableEq, Repr

/-- boolean_element from the source: strip and lowercase the raw value, emit
"true" for "true"/"1"/"yes" and "false" for everything else.  Total - it can
raise nothing. -/
def boolean_element (key v : String) : XesAttr :=
  let v2 := pyLowerStr (pyStrip v)
  let value := if v2 = "true" || v2 = "1" || v2 = "yes" then "true" else "false"
  ⟨"boolean", key, value⟩

/-- Spec-side notion for C6: a case-insensitive match of two strings, with no
whitespace allowance (the claim's words mention only case-insensitivity). -/
def ciMatch (a b : String) : Bool := pyLowerStr a == pyLowerStr b

/-- C6 (counterexample): the claim says boolean coercion yields true exactly
when the raw string is a case-insensitive match of "true", "1" or "yes".
The raw string " true" is a case-insensitive match of none of them, yet the
code coerces it to "true", because boolean_element strips whitespace before
comparing. -/
theorem c6_boolean_counterexample :
    (boolean_element "k" " true").value = "true" ∧
    ciMatch " true" "true" = false ∧
    ciMatch " true" "1" = false ∧
    ciMatch " true" "yes" = false := by
  decide

/-- C6 (amended): boolean coercion is total - every string yields "true" or
"false" and never fails - and yields "true" exactly when the raw string is,
after stripping leading and trailing whitespace, a case-insensitive match of
"true", "1" or "yes". -/
theorem c6_boolean_amended (key v : String) :
    ((boolean_element key v).value = "true" ∨
      (boolean_element key v).value = "false") ∧
    ((boolean_element key v).value = "true" ↔
      (ciMatch (pyStrip v) "true" = true ∨ ciMatch (pyStrip v) "1" = true ∨
        ciMatch (pyStrip v) "yes" = true)) ∧
    (boolean_element key v).tag = "boolean" := by
  have e1 : pyLowerStr "true" = "true" := by decide
  have e2 : pyLowerStr "1" = "1" := by decide
  have e3 : pyLowerStr "yes" = "yes" := by decide
  unfold boolean_element ciMatch
  simp only [beq_iff_eq, e1, e2, e3]
  by_cases h1 : pyLowerStr (pyStrip v) = "true" <;>
    by_cases h2 : pyLowerStr (pyStrip v) = "1" <;>
      by_cases h3 : pyLowerStr (pyStrip v) = "yes" <;>
        simp [h1, h2, h3]

/-- ASCII decimal digit. -/
def pyDigit (c : Char) : Bool := '0' ≤ c && c ≤ '9'

/-- Value of a string of decimal digits. -/
def digitsVal (l : List Char) : Nat :=
  l.foldl (fun acc c => 10 * acc + (c.toNat - 48)) 0

/-- Python 2 int(str): strip whitespace, optional sign, one or more decimal
digits, nothing else; ValueError (none) otherwise. -/
def pyInt (s : String) : Option Int :=
  let l := pyStripChars s.data
  match l with
  | '+' :: rest =>
      if !rest.isEmpty && rest.all pyDigit then some (digitsVal rest) else none
  | '-' :: rest =>
      if !rest.isEmpty && rest.all pyDigit then some (-(digitsVal rest : Int))
      else none
  | _ => if !l.isEmpty && l.all pyDigit then some (digitsVal l) else none

/-- Split a float literal body at the first exponent marker. -/
def splitExp : List Char → List Char × Option (List Char)
  | [] => ([], none)
  | c :: rest =>
      if c = 'e' || c = 'E' then ([], some rest)
      else
        let (m, e) := splitExp rest
        (c :: m, e)

/-- Mantissa of a float literal: digits, digits.digits, digits. or .digits. -/
def mantissaOk (l : List Char) : Bool :=
  let intPart := l.takeWhile pyDigit
  let rest := l.dropWhile pyDigit
  match rest with
  | [] => !intPart.isEmpty
  | '.' :: frac => (!intPart.isEmpty || !frac.isEmpty) && frac.all pyDigit
  | _ => false

/-- Exponent part after the e/E: optional sign then digits. -/
def expOk (l : List Char) : Bool :=
  match l with
  | '+' :: d => !d.isEmpty && d.all pyDigit
  | '-' :: d => !d.isEmpty && d.all pyDigit
  | d => !d.isEmpty && d.all pyDigit

/-- Python float(str) acceptance: strip whitespace, optional sign, then a
decimal mantissa with optional exponent, or inf/infinity/nan in any case.
Returns the accepted (stripped) literal.  Binary floating-point semantics are
outside this embedding: the source renders str(float(v)), which this model
carries abstractly as the accepted literal itself; no claim below inspects a
float-typed value, only whether the coercion succeeded or dropped. -/
def pyFloatLit (s : String) : Option String :=
  let l := pyStripChars s.data
  let body := match l with
    | '+' :: r => r
    | '-' :: r => r
    | r => r
  let lw := body.map pyLowerChar
  let special := lw = "inf".data || lw = "infinity".data || lw = "nan".data
  let numeric :=
    match splitExp body with
    | (m, none) => mantissaOk m
    | (m, some e) => mantissaOk m && expOk e
  if special || numeric then some (String.mk l) else none

/-- The fatal (uncaught) failures of the engine. -/
inductive Err where
  | unknownExtensionPfx (p : String)
  | extensionConflict (p : String)
  | typeUnknown (t : String)
  | typeConflict (n : AttrName)
  | poolEmpty (kind : String)
  | traceAttrMismatch (traceKey : String) (n : AttrName)
  | pyTypeError
deriving DecidableEq, Repr

/-- The result dateutil.parser.parse hands back when it succeeds: the
broken-down local time and the result of datetime.utcoffset() - None for a
naive datetime, otherwise the offset (a datetime.timedelta, modelled by its
whole number of seconds; any nonzero timedelta is truthy). -/
structure PyDateTime where
  year : Nat
  month : Nat
  day : Nat
  hour : Nat
  minute : Nat
  second : Nat
  microsecond : Nat
  utcoffsetSeconds : Option Int
deriving DecidableEq, Repr

/-- "%0wd" zero-padded rendering of a Nat. -/
def pad (w n : Nat) : String :=
  let d := (Nat.repr n).data
  String.mk (List.replicate (w - d.length) '0' ++ d)

/-- xesformat from the source.  The base is rendered at millisecond
precision (round(ts.microsecond / 1000) in Python 2 is floor division by
1000 rounded on an already-integral value).  Then `tz = ts.utcoffset()`:
None and the zero timedelta are falsy, so those yield base + "Z"; for any
nonzero timedelta the source immediately evaluates int(tz / 60), and int()
of a datetime.timedelta raises TypeError - which no caller catches - so the
offset branch can never produce a string. -/
def xesformat (ts : PyDateTime) : Except Err String :=
  let base := pad 4 ts.year ++ "-" ++ pad 2 ts.month ++ "-" ++ pad 2 ts.day ++
    "T" ++ pad 2 ts.hour ++ ":" ++ pad 2 ts.minute ++ ":" ++ pad 2 ts.second ++
    "." ++ pad 3 (ts.microsecond / 1000)
  match ts.utcoffsetSeconds with
  | none => .ok (base ++ "Z")
  | some t => if t = 0 then .ok (base ++ "Z") else .error .pyTypeError

/-- ASCII hex digit. -/
def hexDigit (c : Char) : Bool :=
  pyDigit c || ('a' ≤ c && c ≤ 'f') || ('A' ≤ c && c ≤ 'F')

/-- Remove every left-to-right non-overlapping occurrence of a pattern
(str.replace(pat, "") in CPython), fuel-structured on the input length. -/
def removeRunAux (p : List Char) : Nat → List Char → List Char
  | 0, l => l
  | _, [] => []
  | fuel + 1, c :: rest =>
      if !p.isEmpty && (c :: rest).take p.length = p then
        removeRunAux p fuel ((c :: rest).drop p.length)
      else c :: removeRunAux p fuel rest

/-- str.replace(pat, "") on a char list. -/
def removeRun (p : List Char) (l : List Char) : List Char :=
  removeRunAux p l.length l

def braceOpen : Char := Char.ofNat 123

def braceClose : Char := Char.ofNat 125

/-- str.strip(chars): drop characters of the set from both ends. -/
def stripSet (p : Char → Bool) (l : List Char) : List Char :=
  ((l.dropWhile p).reverse.dropWhile p).reverse

/-- Render 32 hex digits in canonical 8-4-4-4-12 lowercase form: what
str(uuid.UUID(v)) prints ('%032x' of the parsed 128-bit value, re-grouped). -/
def canonRender (l : List Char) : String :=
  let d := l.map pyLowerChar
  String.mk (d.take 8) ++ "-" ++ String.mk ((d.drop 8).take 4) ++ "-" ++
    String.mk ((d.drop 12).take 4) ++ "-" ++ String.mk ((d.drop 16).take 4) ++
    "-" ++ String.mk (d.drop 20)

/-- uuid.UUID(v) from CPython: drop every "urn:" and "uuid:", strip braces
from the ends, drop hyphens, and require exactly 32 hex digits; on success
str() of the result is the canonical lowercase hyphenated form.  (int(hex,16)
tolerates an embedded sign or padding whitespace; such freak inputs are
treated as malformed here - no claim depends on them.)  Malformed input
raises ValueError (none). -/
def pyUUID (s : String) : Option String :=
  let l0 := removeRun "uuid:".data (removeRun "urn:".data s.data)
  let l1 := stripSet (fun c => c = braceOpen || c = braceClose) l0
  let l2 := l1.filter (fun c => c ≠ '-')
  if l2.length = 32 && l2.all hexDigit then some (canonRender l2) else none

/-- The outcome of building one typed attribute element: built, dropped by a
caught ValueError/KeyError, or a fatal uncaught exception. -/
inductive Coerced where
  | ok (el : XesAttr)
  | dropped
  | fatal (e : Err)
deriving DecidableEq, Repr

/-- string_element: passthrough (the source's `v if v else ""` is the
identity on strings; template evaluation always hands it a string). -/
def string_element (key v : String) : XesAttr := ⟨"string", key, v⟩

/-- date_element: parse with dateutil (ValueError on failure, caught by the
callers), then xesformat (whose nonzero-offset TypeError is caught by no
caller). -/
def date_element (parse : String → Option PyDateTime) (key v : String) :
    Coerced :=
  match parse v with
  | none => .dropped
  | some ts =>
      match xesformat ts with
      | .ok s => .ok ⟨"date", key, s⟩
      | .error e => .fatal e

/-- int_element: str(int(v)); ValueError (caught) on parse failure. -/
def int_element (key v : String) : Coerced :=
  match pyInt v with
  | none => .dropped
  | some i => .ok ⟨"int", key, toString i⟩

/-- float_element: str(float(v)); ValueError (caught) on parse failure. -/
def float_element (key v : String) : Coerced :=
  match pyFloatLit v with
  | none => .dropped
  | some lit => .ok ⟨"float", key, lit⟩

/-- id_element: passthrough. -/
def id_element (key v : String) : XesAttr := ⟨"id", key, v⟩

/-- uuid_element: id_element(key, str(UUID(v))); UUID() raises ValueError
(caught by dict_to_element) on malformed input. -/
def uuid_element (key v : String) : Coerced :=
  match pyUUID v with
  | none => .dropped
  | some c => .ok (id_element key c)

/-- The built-in typed_attributes table of the source. -/
def typed_attributes : List (AttrName × String) :=
  [ ((some "concept", "name"), "string"),
    ((some "concept", "event"), "string"),
    ((some "lifecycle", "model"), "string"),
    ((some "lifecycle", "transition"), "string"),
    ((some "org", "resource"), "string"),
    ((some "org", "role"), "string"),
    ((some "org", "group"), "string"),
    ((some "time", "timestamp"), "date"),
    ((some "semantic", "modelReference"), "string"),
    ((some "id", "id"), "_uuid"),
    ((some "cost", "total"), "float"),
    ((some "cost", "currency"), "string") ]

/-- name_to_raw_name: "p:local" when the namespace part is truthy, else the
bare local name. -/
def name_to_raw_name (n : AttrName) : String :=
  match n.1 with
  | some p => if p = "" then n.2 else p ++ ":" ++ n.2
  | none => n.2

/-- Split a character list at every colon (str.split(":")). -/
def splitColon : List Char → List (List Char)
  | [] => [[]]
  | c :: rest =>
      let r := splitColon rest
      if c = ':' then [] :: r
      else
        match r with
        | [] => [[c]]
        | h :: t => (c :: h) :: t

/-- raw_name_to_name: split on ":"; one part means no namespace, otherwise
the first two parts (the source's maxsplit-2 split drops anything past the
second colon, as does taking parts[0] and parts[1]). -/
def raw_name_to_name (s : String) : AttrName :=
  match splitColon s.data with
  | [x] => (none, String.mk x)
  | x :: y :: _ => (some (String.mk x), String.mk y)
  | [] => (none, s)

/-- Dispatch on an elementary type name (elementary_attribute_types in the
source).  The catch-all returns a string element: it is unreachable for any
registry the program builds, because the built-in table only holds the names
above and the --type stage asserts membership before extending it. -/
def elementary_dispatch (parse : String → Option PyDateTime) (tyname : String)
    (key v : String) : Coerced :=
  match tyname with
  | "string" => .ok (string_element key v)
  | "date" => date_element parse key v
  | "int" => int_element key v
  | "float" => float_element key v
  | "boolean" => .ok (boolean_element key v)
  | "id" => .ok (id_element key v)
  | "_uuid" => uuid_element key v
  | _ => .ok (string_element key v)

/-- make_element: look the attribute name up in the type registry (default
"string") and build the typed element. -/
def make_element (parse : String → Option PyDateTime)
    (types : List (AttrName × String)) (n : AttrName) (v : String) : Coerced :=
  elementary_dispatch parse ((alookup types n).getD "string")
    (name_to_raw_name n) v

/-- dict_to_element: build an event element from a record.  Per mapping rule:
evaluate the template (KeyError on an absent field is caught: skip), build
the element (ValueError is caught: skip); any other exception - the nonzero
offset TypeError - propagates and aborts the run.  With preserve set, the
raw attributes follow the mapped ones as untyped string elements. -/
def dict_to_element (parse : String → Option PyDateTime)
    (types : List (AttrName × String)) :
    List (AttrName × Template) → Record → Bool → Except Err (List XesAttr)
  | [], d, preserve =>
      .ok (if preserve then d.map (fun kv => string_element kv.1 kv.2) else [])
  | (n, t) :: rest, d, preserve =>
      match evalTemplate t d with
      | none => dict_to_element parse types rest d preserve
      | some v =>
          match make_element parse types n v with
          | .dropped => dict_to_element parse types rest d preserve
          | .fatal e => .error e
          | .ok el =>
              (dict_to_element parse types rest d preserve).map
                (fun els => el :: els)

/-- C5 (code bug): xesformat crashes with an uncaught TypeError on every
parse result carrying a nonzero UTC offset (int() applied to a timedelta),
so the claimed signed HH:MM suffix is never produced; the millisecond base
and the "Z" suffix of the offset-free and zero-offset branches are as
claimed. -/
theorem c5_date_offset_fatal :
    xesformat ⟨2018, 1, 1, 10, 0, 0, 123456, some 7200⟩ =
      .error .pyTypeError ∧
    xesformat ⟨2018, 1, 1, 10, 0, 0, 123456, none⟩ =
      .ok "2018-01-01T10:00:00.123Z" ∧
    xesformat ⟨2018, 1, 1, 10, 0, 0, 123456, some 0⟩ =
      .ok "2018-01-01T10:00:00.123Z" := by
  exact ⟨rfl, rfl, rfl⟩

/-- Dropping a rule whose element build is skipped (absent field or caught
ValueError) leaves the rest of the event element unchanged. -/
theorem dict_to_element_skips (parse : String → Option PyDateTime)
    (types : List (AttrName × String)) (r1 r2 : List (AttrName × Template))
    (n : AttrName) (t : Template) (d : Record) (preserve : Bool)
    (h : evalTemplate t d = none ∨
      ∃ v, evalTemplate t d = some v ∧ make_element parse types n v = .dropped) :
    dict_to_element parse types (r1 ++ (n, t) :: r2) d preserve =
      dict_to_element parse types (r1 ++ r2) d preserve := by
  induction r1 with
  | nil =>
      rcases h with h | ⟨v, hv, hd⟩
      · simp only [List.nil_append, dict_to_element, h]
      · simp only [List.nil_append, dict_to_element, hv, hd]
  | cons hd1 tl1 ih =>
      obtain ⟨n1, t1⟩ := hd1
      simp only [List.cons_append, List.append_eq, dict_to_element] at ih ⊢
      rw [ih]

/-- C9: for a mapping rule typed int, float or date whose raw value fails to
coerce (the parser raises ValueError, which dict_to_element catches), only
that one attribute is omitted: the event element is exactly the one built
without the rule, so every other successfully coerced attribute and the
record itself are still emitted and the run continues. -/
theorem c9_coercion_failure_drops_one_attribute
    (parse : String → Option PyDateTime) (types : List (AttrName × String))
    (r1 r2 : List (AttrName × Template)) (n : AttrName) (t : Template)
    (d : Record) (preserve : Bool) (v : String)
    (_hty : (alookup types n).getD "string" = "int" ∨
      (alookup types n).getD "string" = "float" ∨
      (alookup types n).getD "string" = "date")
    (hev : evalTemplate t d = some v)
    (hdrop : make_element parse types n v = .dropped) :
    dict_to_element parse types (r1 ++ (n, t) :: r2) d preserve =
      dict_to_element parse types (r1 ++ r2) d preserve :=
  dict_to_element_skips parse types r1 r2 n t d preserve
    (Or.inr ⟨v, hev, hdrop⟩)

/-- C9 witness: the spec's own scenario - cost:total is float-typed, the
record maps it from the non-numeric field value "abc": the cost attribute
vanishes while the concept:name attribute and the event survive. -/
theorem c9_coercion_failure_witness :
    dict_to_element (fun _ => none) typed_attributes
        [((some "cost", "total"), [Tok.fld "amt"]),
          ((some "concept", "name"), [Tok.lit "ev"])]
        [("amt", "abc")] false =
      .ok [⟨"string", "concept:name", "ev"⟩] ∧
    dict_to_element (fun _ => none) typed_attributes
        [((some "cost", "total"), [Tok.fld "amt"]),
          ((some "concept", "name"), [Tok.lit "ev"])]
        [("amt", "abc")] false =
      dict_to_element (fun _ => none) typed_attributes
        [((some "concept", "name"), [Tok.lit "ev"])] [("amt", "abc")] false := by
  constructor
  · rfl
  · exact c9_coercion_failure_drops_one_attribute (fun _ => none)
      typed_attributes [] [((some "concept", "name"), [Tok.lit "ev"])]
      (some "cost", "total") [Tok.fld "amt"] [("amt", "abc")] false "abc"
      (Or.inr (Or.inl (by rfl))) (by rfl) (by rfl)

/-- C7 (counterexample): the claim says a malformed value for the forced
uuid subtype (the identity extension's id:id attribute) aborts the whole
run.  It does not: uuid.UUID raises ValueError, and dict_to_element catches
ValueError, so the attribute is silently dropped and the event is still
emitted - here the event element comes back ok (and empty), with no fatal
error. -/
theorem c7_uuid_counterexample :
    pyUUID "notauuid" = none ∧
    dict_to_element (fun _ => none) typed_attributes
        [((some "id", "id"), [Tok.fld "u"])] [("u", "notauuid")] false =
      .ok [] := by
  constructor
  · decide
  · rfl

/-- C7 (amended): a raw id:id value that does not parse as a UUID causes
only that attribute to be dropped, exactly like the other coercions'
non-fatal drops - the event element equals the one built without the rule -
while a well-formed value is canonicalized and emitted as an id element. -/
theorem c7_uuid_amended (parse : String → Option PyDateTime)
    (r1 r2 : List (AttrName × Template)) (t : Template) (d : Record)
    (preserve : Bool) (raw : String)
    (hev : evalTemplate t d = some raw) :
    (pyUUID raw = none →
      dict_to_element parse typed_attributes
          (r1 ++ ((some "id", "id"), t) :: r2) d preserve =
        dict_to_element parse typed_attributes (r1 ++ r2) d preserve) ∧
    (∀ c, pyUUID raw = some c →
      dict_to_element parse typed_attributes [((some "id", "id"), t)] d
          false =
        .ok [⟨"id", "id:id", c⟩]) := by
  have hid : make_element parse typed_attributes (some "id", "id") raw =
      uuid_element "id:id" raw := by
    have hty : (alookup typed_attributes ((some "id", "id") : AttrName)).getD
        "string" = "_uuid" := by decide
    rw [make_element, hty]
    rfl
  constructor
  · intro hbad
    refine dict_to_element_skips parse typed_attributes r1 r2 _ t d preserve
      (Or.inr ⟨raw, hev, ?_⟩)
    rw [hid, uuid_element, hbad]
  · intro c hc
    simp only [dict_to_element, hev, hid, uuid_element, hc, Except.map]
    rfl

/-- C7 amended witness: a well-formed urn-form uppercase UUID is accepted,
canonicalized to lowercase hyphenated form and emitted as an id element. -/
theorem c7_uuid_amended_witness :
    dict_to_element (fun _ => none) typed_attributes
        [((some "id", "id"), [Tok.fld "u"])]
        [("u", "urn:uuid:ABCDEF78-1234-5678-1234-567812345678")] false =
      .ok [⟨"id", "id:id", "abcdef78-1234-5678-1234-567812345678"⟩] :=
  (c7_uuid_amended (fun _ => none) [] [] [Tok.fld "u"]
      [("u", "urn:uuid:ABCDEF78-1234-5678-1234-567812345678")] false
      "urn:uuid:ABCDEF78-1234-5678-1234-567812345678" (by decide)).2
    "abcdef78-1234-5678-1234-567812345678" (by decide)

/-- The raw field names a template references. -/
def templateFields (t : Template) : List String :=
  t.filterMap (fun tok => match tok with
    | Tok.lit _ => none
    | Tok.fld f => some f)

theorem isSome_omap {α β : Type} (f : α → β) (o : Option α) :
    (Option.map f o).isSome = o.isSome := by cases o <;> rfl

/-- Template evaluation succeeds exactly when every referenced field is
present in the record. -/
theorem evalTemplate_isSome_iff (t : Template) (e : Record) :
    (evalTemplate t e).isSome = true ↔
      ∀ f ∈ templateFields t, (alookup e f).isSome = true := by
  induction t with
  | nil => simp [evalTemplate, templateFields]
  | cons tok rest ih =>
      cases tok with
      | lit s =>
          simp only [templateFields] at ih
          simp only [evalTemplate, templateFields, List.filterMap_cons,
            isSome_omap]
          exact ih
      | fld f =>
          simp only [templateFields] at ih
          simp only [evalTemplate, templateFields, List.filterMap_cons]
          cases hf : alookup e f with
          | none =>
              show (none : Option String).isSome = true ↔ _
              simp only [Option.isSome_none, Bool.false_eq_true, false_iff]
              intro h
              have hx := h f (List.mem_cons_self _ _)
              rw [hf] at hx
              exact absurd hx (by simp)
          | some v =>
              show (Option.map (fun r => v ++ r)
                (evalTemplate rest e)).isSome = true ↔ _
              rw [isSome_omap, ih]
              constructor
              · intro h g hg
                rcases List.mem_cons.mp hg with rfl | hg
                · rw [hf]; rfl
                · exact h g hg
              · intro h g hg
                exact h g (List.mem_cons_of_mem _ hg)

/-- The ordered trace-key template list (trace_names in the source): the
source starts from [""] and, while iterating the trace-attribute mapping
dict, inserts the value of the concept:name entry - a dict holds at most
one such key - at position 0.  So: the concept:name template first when one
is configured, the always-succeeding empty template last. -/
def traceNames (tm : List (AttrName × Template)) : List Template :=
  match alookup tm (some "concept", "name") with
  | some t => [t, []]
  | none => [[]]

/-- The routing loop's inner `for t in trace_names: try ... break except
KeyError`: the first template that evaluates gives the trace key. -/
def routeFirst : List Template → Record → Option String
  | [], _ => none
  | t :: ts, e =>
      match evalTemplate t e with
      | some k => some k
      | none => routeFirst ts e

/-- The routing state: traces_in_order and the traces dict (keys unique,
member records in arrival order). -/
structure Routed where
  order : List String
  tab : List (String × List Record)
deriving Repr

/-- Add one routed record: register an unseen key in discovery order with a
fresh member list, then append the record to its trace. -/
def addRecord (st : Routed) (k : String) (e : Record) : Routed :=
  match alookup st.tab k with
  | none => ⟨st.order ++ [k], st.tab ++ [(k, [e])]⟩
  | some l => ⟨st.order, aupdate st.tab k (l ++ [e])⟩

/-- The main routing loop over the record stream.  A record on which every
template fails is silently skipped by the source; the always-succeeding
empty template makes that branch unreachable whenever the template list
comes from traceNames. -/
def routeGo (tns : List Template) : Routed → List Record → Routed
  | st, [] => st
  | st, e :: rest =>
      match routeFirst tns e with
      | some k => routeGo tns (addRecord st k e) rest
      | none => routeGo tns st rest

/-- Route a whole record stream from the empty state. -/
def routeAll (tns : List Template) (rs : List Record) : Routed :=
  routeGo tns ⟨[], []⟩ rs

/-- The member records of a trace key ([] when the key was never
discovered). -/
def bucketOf (st : Routed) (k : String) : List Record :=
  (alookup st.tab k).getD []

theorem alookup_eq_none {α β : Type} [DecidableEq α] (t : List (α × β))
    (k : α) : alookup t k = none ↔ k ∉ t.map Prod.fst := by
  induction t with
  | nil => simp [alookup]
  | cons hd tl ih =>
      obtain ⟨k0, v0⟩ := hd
      by_cases h : k0 = k
      · subst h; simp [alookup]
      · simp [alookup, h, ih, Ne.symm h]

theorem alookup_append_right {α β : Type} [DecidableEq α]
    (t : List (α × β)) (k k' : α) (v : β) (h : alookup t k = none) :
    alookup (t ++ [(k, v)]) k' =
      if k = k' then some v else alookup t k' := by
  induction t with
  | nil => simp [alookup]
  | cons hd tl ih =>
      obtain ⟨k0, v0⟩ := hd
      simp only [alookup] at h
      by_cases h0 : k0 = k
      · simp [h0] at h
      · simp only [alookup, h0, if_false] at h
        by_cases h1 : k0 = k'
        · have hne : k ≠ k' := fun hkk => h0 (h1.trans hkk.symm)
          simp [List.cons_append, alookup, h1, hne]
        · simp only [List.cons_append, alookup, h1, if_false]
          exact ih h

theorem alookup_aupdate_self {α β : Type} [DecidableEq α] (t : List (α × β))
    (k : α) (v w : β) (h : alookup t k = some w) :
    alookup (aupdate t k v) k = some v := by
  induction t with
  | nil => simp [alookup] at h
  | cons hd tl ih =>
      obtain ⟨k0, v0⟩ := hd
      by_cases h0 : k0 = k
      · simp [aupdate, alookup, h0]
      · simp only [alookup, h0, if_false] at h
        simp [aupdate, alookup, h0, ih h]

theorem alookup_aupdate_other {α β : Type} [DecidableEq α]
    (t : List (α × β)) (k k' : α) (v : β) (h : k ≠ k') :
    alookup (aupdate t k v) k' = alookup t k' := by
  induction t with
  | nil => simp [aupdate, alookup]
  | cons hd tl ih =>
      obtain ⟨k0, v0⟩ := hd
      by_cases h0 : k0 = k
      · subst h0
        simp [aupdate, alookup, h]
      · simp [aupdate, alookup, h0, ih]

theorem aupdate_keys {α β : Type} [DecidableEq α] (t : List (α × β))
    (k : α) (v : β) : (aupdate t k v).map Prod.fst = t.map Prod.fst := by
  induction t with
  | nil => simp [aupdate]
  | cons hd tl ih =>
      obtain ⟨k0, v0⟩ := hd
      by_cases h0 : k0 = k
      · simp [aupdate, h0]
      · simp [aupdate, h0, ih]

/-- Adding a record touches exactly its own trace's bucket, appending at the
end. -/
theorem bucketOf_addRecord (st : Routed) (k : String) (e : Record)
    (k' : String) :
    bucketOf (addRecord st k e) k' =
      if k = k' then bucketOf st k ++ [e] else bucketOf st k' := by
  unfold addRecord bucketOf
  cases h : alookup st.tab k with
  | none =>
      simp only
      rw [alookup_append_right st.tab k k' [e] h]
      by_cases hk : k = k'
      · subst hk; simp [h]
      · simp [hk]
  | some l =>
      simp only
      by_cases hk : k = k'
      · subst hk
        rw [alookup_aupdate_self st.tab k (l ++ [e]) l h]
        simp [h]
      · rw [alookup_aupdate_other st.tab k k' (l ++ [e]) hk]
        simp [hk]

/-- Each bucket of the routing loop is exactly the routed-to-it records in
arrival order. -/
theorem routeGo_bucket (tns : List Template) (rs : List Record) (st : Routed)
    (k : String) :
    bucketOf (routeGo tns st rs) k =
      bucketOf st k ++
        rs.filter (fun e => decide (routeFirst tns e = some k)) := by
  induction rs generalizing st with
  | nil => simp [routeGo]
  | cons e rest ih =>
      simp only [routeGo]
      cases hr : routeFirst tns e with
      | none =>
          rw [ih]
          have : decide (routeFirst tns e = some k) = false := by
            simp [hr]
          simp [List.filter_cons, this]
      | some k0 =>
          rw [ih]
          rw [bucketOf_addRecord]
          by_cases hk : k0 = k
          · subst hk
            have : decide (routeFirst tns e = some k0) = true := by simp [hr]
            simp [List.filter_cons, this]
          · have : decide (routeFirst tns e = some k) = false := by
              simp [hr, hk]
            simp [List.filter_cons, this, hk]

theorem routeAll_bucket (tns : List Template) (rs : List Record)
    (k : String) :
    bucketOf (routeAll tns rs) k =
      rs.filter (fun e => decide (routeFirst tns e = some k)) := by
  rw [routeAll, routeGo_bucket]
  simp [bucketOf, alookup]

/-- A template list ending in the empty template routes every record. -/
theorem routeFirst_total (ts : List Template) (e : Record) :
    ∃ k, routeFirst (ts ++ [[]]) e = some k := by
  induction ts with
  | nil => exact ⟨"", rfl⟩
  | cons t rest ih =>
      simp only [List.cons_append, routeFirst]
      cases ht : evalTemplate t e with
      | none => exact ih
      | some k => exact ⟨k, rfl⟩

/-- traceNames always ends in the empty template. -/
theorem traceNames_ends_empty (tm : List (AttrName × Template)) :
    ∃ pre, traceNames tm = pre ++ [[]] := by
  unfold traceNames
  cases alookup tm (some "concept", "name") with
  | none => exact ⟨[], rfl⟩
  | some t => exact ⟨[t], rfl⟩

/-- C1: the trace router tries the templates in order - the concept:name
trace template first when configured, the always-succeeding empty template
last - and every record lands in exactly one bucket, the one keyed by the
first template whose referenced fields are all present (bucket contents are
characterized as a filter of the input stream, so a record is in no other
bucket); with no concept:name trace rule configured, every record lands in
the single trace keyed by the empty string. -/
theorem c1_trace_router (tm : List (AttrName × Template)) (rs : List Record) :
    (∀ t e, (evalTemplate t e).isSome = true ↔
      ∀ f ∈ templateFields t, (alookup e f).isSome = true) ∧
    (∀ e : Record, ∃ k, routeFirst (traceNames tm) e = some k) ∧
    (∀ t, alookup tm (some "concept", "name") = some t →
      traceNames tm = [t, []]) ∧
    (∀ k, bucketOf (routeAll (traceNames tm) rs) k =
      rs.filter (fun e => decide (routeFirst (traceNames tm) e = some k))) ∧
    (alookup tm (some "concept", "name") = none →
      traceNames tm = [[]] ∧
      bucketOf (routeAll (traceNames tm) rs) "" = rs ∧
      ∀ k, k ≠ "" → bucketOf (routeAll (traceNames tm) rs) k = []) := by
  refine ⟨evalTemplate_isSome_iff, ?_, ?_, routeAll_bucket _ rs, ?_⟩
  · intro e
    obtain ⟨pre, hpre⟩ := traceNames_ends_empty tm
    rw [hpre]
    exact routeFirst_total pre e
  · intro t ht
    unfold traceNames
    rw [ht]
  · intro hnone
    have htn : traceNames tm = [[]] := by
      unfold traceNames
      rw [hnone]
    refine ⟨htn, ?_, ?_⟩
    · rw [routeAll_bucket, htn]
      have : ∀ e : Record, routeFirst [[]] e = some "" := fun _ => rfl
      simp [this]
    · intro k hk
      rw [routeAll_bucket, htn]
      have : ∀ e : Record, routeFirst [[]] e = some "" := fun _ => rfl
      simp [this, List.filter_eq_nil_iff]
      intro e _ h
      exact hk h.symm

/-- The three pseudonym pool kinds of pseudo_pools. -/
inductive PoolKind where
  | name
  | place
  | uuid
deriving DecidableEq, Repr

def kindName : PoolKind → String
  | .name => "name"
  | .place => "place"
  | .uuid => "uuid"

/-- The process-wide pseudonymisation state: one memo dict per kind
(pseudo_mappings) and the not-yet-consumed part of each pool iterator
(pseudo_pools).  The name and place pools are the fixed shuffled Danish
lists - data, on which no claim depends, so the state carries whatever list
remains; the uuid pool is the seeded generator, modelled by the next
generator index (the generator function itself is a parameter below). -/
structure PseudoState where
  nameMemo : List (String × String)
  placeMemo : List (String × String)
  uuidMemo : List (String × String)
  namePool : List String
  placePool : List String
  uuidNext : Nat
deriving DecidableEq, Repr

def memoOf (st : PseudoState) : PoolKind → List (String × String)
  | .name => st.nameMemo
  | .place => st.placeMemo
  | .uuid => st.uuidMemo

def memoInsert (st : PseudoState) (k : PoolKind) (n v : String) :
    PseudoState :=
  match k with
  | .name => { st with nameMemo := st.nameMemo ++ [(n, v)] }
  | .place => { st with placeMemo := st.placeMemo ++ [(n, v)] }
  | .uuid => { st with uuidMemo := st.uuidMemo ++ [(n, v)] }

/-- next(pseudo_pools[kind]["iter"]): none is StopIteration.  The uuid
iterator never stops: it yields gen applied to ever-increasing indices. -/
def poolNext (gen : Nat → String) (st : PseudoState) :
    PoolKind → Option (String × PseudoState)
  | .name =>
      match st.namePool with
      | [] => none
      | v :: rest => some (v, { st with namePool := rest })
  | .place =>
      match st.placePool with
      | [] => none
      | v :: rest => some (v, { st with placePool := rest })
  | .uuid => some (gen st.uuidNext, { st with uuidNext := st.uuidNext + 1 })

/-- pseudonymise from the source: return the memoized substitute when one
exists; otherwise draw the next pool entry (StopIteration on an exhausted
finite pool escalates to a fatal Exception) and memoize it.  The
`assert kind in pseudo_pools` guard is vacuous here: PoolKind only has the
three pool kinds. -/
def pseudonymise (gen : Nat → String) (k : PoolKind) (n : String)
    (st : PseudoState) : Except Err (String × PseudoState) :=
  match alookup (memoOf st k) n with
  | some v => .ok (v, st)
  | none =>
      match poolNext gen st k with
      | none => .error (.poolEmpty (kindName k))
      | some (v, st1) => .ok (v, memoInsert st1 k n v)

theorem alookup_append_left {α β : Type} [DecidableEq α]
    (t1 t2 : List (α × β)) (k : α) (v : β) (h : alookup t1 k = some v) :
    alookup (t1 ++ t2) k = some v := by
  induction t1 with
  | nil => simp [alookup] at h
  | cons hd tl ih =>
      obtain ⟨k0, v0⟩ := hd
      by_cases h0 : k0 = k
      · simp only [alookup, h0, if_true] at h
        simp [List.cons_append, alookup, h0, h]
      · simp only [alookup, h0, if_false] at h
        simp [List.cons_append, alookup, h0, ih h]

/-- Drawing from a pool never touches any memo. -/
theorem poolNext_memo (gen : Nat → String) (st : PseudoState) (k1 : PoolKind)
    (v : String) (st2 : PseudoState) (h : poolNext gen st k1 = some (v, st2)) :
    ∀ k, memoOf st2 k = memoOf st k := by
  intro k
  cases k1 with
  | name =>
      cases hp : st.namePool with
      | nil =>
          simp only [poolNext, hp] at h
          exact absurd h (by simp)
      | cons a rest =>
          simp only [poolNext, hp] at h
          cases h
          cases k <;> rfl
  | place =>
      cases hp : st.placePool with
      | nil =>
          simp only [poolNext, hp] at h
          exact absurd h (by simp)
      | cons a rest =>
          simp only [poolNext, hp] at h
          cases h
          cases k <;> rfl
  | uuid =>
      simp only [poolNext] at h
      cases h
      cases k <;> rfl

/-- Memo insertion under one kind appends to that kind's memo and leaves the
others alone. -/
theorem memoOf_memoInsert (st : PseudoState) (k1 : PoolKind) (n v : String)
    (k : PoolKind) :
    memoOf (memoInsert st k1 n v) k =
      if k = k1 then memoOf st k1 ++ [(n, v)] else memoOf st k := by
  cases k1 <;> cases k <;> simp [memoInsert, memoOf]

/-- C3: first call on a fresh raw value consumes the next unused pool entry
and memoizes it; every later call with the same kind and raw value returns
the memoized substitute unchanged, and the memo survives any other
pseudonymise call; exhausting the finite name or place pool is fatal; the
uuid pool never exhausts. -/
theorem c3_pseudonymise (gen : Nat → String) :
    (∀ k n v st, alookup (memoOf st k) n = some v →
      pseudonymise gen k n st = .ok (v, st)) ∧
    (∀ k n st v st1, alookup (memoOf st k) n = none →
      poolNext gen st k = some (v, st1) →
      pseudonymise gen k n st = .ok (v, memoInsert st1 k n v) ∧
      alookup (memoOf (memoInsert st1 k n v) k) n = some v) ∧
    (∀ n st, alookup (memoOf st .name) n = none → st.namePool = [] →
      pseudonymise gen .name n st = .error (.poolEmpty "name")) ∧
    (∀ n st, alookup (memoOf st .place) n = none → st.placePool = [] →
      pseudonymise gen .place n st = .error (.poolEmpty "place")) ∧
    (∀ n st, ∃ v st1, pseudonymise gen .uuid n st = .ok (v, st1)) ∧
    (∀ k n v k1 n1 st v1 st1, alookup (memoOf st k) n = some v →
      pseudonymise gen k1 n1 st = .ok (v1, st1) →
      alookup (memoOf st1 k) n = some v) := by
  refine ⟨?_, ?_, ?_, ?_, ?_, ?_⟩
  · intro k n v st h
    rw [pseudonymise, h]
  · intro k n st v st1 hmiss hpool
    constructor
    · rw [pseudonymise, hmiss, hpool]
    · rw [memoOf_memoInsert, if_pos rfl]
      have hm : memoOf st1 k = memoOf st k := poolNext_memo gen st k v st1 hpool k
      rw [hm, alookup_append_right (memoOf st k) n n v hmiss, if_pos rfl]
  · intro n st hmiss hempty
    rw [pseudonymise, hmiss, poolNext, hempty]
    rfl
  · intro n st hmiss hempty
    rw [pseudonymise, hmiss, poolNext, hempty]
    rfl
  · intro n st
    cases hm : alookup (memoOf st .uuid) n with
    | some v =>
        exact ⟨v, st, by rw [pseudonymise, hm]⟩
    | none =>
        refine ⟨gen st.uuidNext,
          memoInsert { st with uuidNext := st.uuidNext + 1 } .uuid n
            (gen st.uuidNext), ?_⟩
        rw [pseudonymise, hm, poolNext]
  · intro k n v k1 n1 st v1 st1 hmemo hcall
    rw [pseudonymise] at hcall
    cases hm1 : alookup (memoOf st k1) n1 with
    | some w =>
        rw [hm1] at hcall
        cases hcall
        exact hmemo
    | none =>
        rw [hm1] at hcall
        cases hp : poolNext gen st k1 with
        | none =>
            rw [hp] at hcall
            exact absurd hcall (by simp)
        | some vs =>
            obtain ⟨w, st2⟩ := vs
            rw [hp] at hcall
            have hst : st1 = memoInsert st2 k1 n1 w := by
              simp only [Except.ok.injEq, Prod.mk.injEq] at hcall
              exact hcall.2.symm
            subst hst
            rw [memoOf_memoInsert]
            by_cases hk : k = k1
            · subst hk
              rw [if_pos rfl, poolNext_memo gen st k w st2 hp k]
              exact alookup_append_left _ _ n v hmemo
            · rw [if_neg hk, poolNext_memo gen st k1 w st2 hp k]
              exact hmemo

/-- C3 witness: with a one-entry name pool, the first call on "Jens Jensen"
consumes and memoizes the entry; the second call returns the same substitute
without changing the state; a fresh value on the now-empty pool is fatal;
the uuid pool yields even from the same state. -/
theorem c3_pseudonymise_witness :
    pseudonymise (fun i => toString i) .name "Jens Jensen"
        ⟨[], [], [], ["Anne Kim Nielsen"], [], 0⟩ =
      .ok ("Anne Kim Nielsen",
        ⟨[("Jens Jensen", "Anne Kim Nielsen")], [], [], [], [], 0⟩) ∧
    pseudonymise (fun i => toString i) .name "Jens Jensen"
        ⟨[("Jens Jensen", "Anne Kim Nielsen")], [], [], [], [], 0⟩ =
      .ok ("Anne Kim Nielsen",
        ⟨[("Jens Jensen", "Anne Kim Nielsen")], [], [], [], [], 0⟩) ∧
    pseudonymise (fun i => toString i) .name "Mette Olsen"
        ⟨[("Jens Jensen", "Anne Kim Nielsen")], [], [], [], [], 0⟩ =
      .error (.poolEmpty "name") ∧
    pseudonymise (fun i => toString i) .uuid "Mette Olsen"
        ⟨[("Jens Jensen", "Anne Kim Nielsen")], [], [], [], [], 0⟩ =
      .ok ("0", ⟨[("Jens Jensen", "Anne Kim Nielsen")], [],
        [("Mette Olsen", "0")], [], [], 1⟩) := by
  have h := c3_pseudonymise (fun i => toString i)
  refine ⟨?_, ?_, ?_, ?_⟩
  · exact (h.2.1 .name "Jens Jensen" ⟨[], [], [], ["Anne Kim Nielsen"], [], 0⟩
      "Anne Kim Nielsen" ⟨[], [], [], [], [], 0⟩ rfl rfl).1
  · exact h.1 .name "Jens Jensen" "Anne Kim Nielsen"
      ⟨[("Jens Jensen", "Anne Kim Nielsen")], [], [], [], [], 0⟩ (by decide)
  · exact h.2.2.1 "Mette Olsen"
      ⟨[("Jens Jensen", "Anne Kim Nielsen")], [], [], [], [], 0⟩ (by decide) rfl
  · exact (h.2.1 .uuid "Mette Olsen"
      ⟨[("Jens Jensen", "Anne Kim Nielsen")], [], [], [], [], 0⟩ "0"
      ⟨[("Jens Jensen", "Anne Kim Nielsen")], [], [], [], [], 1⟩
      (by decide) rfl).1

/-- The built-in extensions table: prefix to (display name, URI). -/
def extensions : List (String × String × String) :=
  [ ("concept", "Concept", "http://www.xes-standard.org/concept.xesext"),
    ("lifecycle", "Lifecycle", "http://www.xes-standard.org/lifecycle.xesext"),
    ("org", "Organizational", "http://www.xes-standard.org/org.xesext"),
    ("time", "Time", "http://www.xes-standard.org/time.xesext"),
    ("semantic", "Semantic", "http://www.xes-standard.org/semantic.xesext"),
    ("id", "ID", "http://www.xes-standard.org/identity.xesext"),
    ("cost", "Cost", "http://www.xes-standard.org/cost.xesext") ]

/-- One extension declaration element of the output header. -/
structure ExtEl where
  name : String
  pfx : String
  uri : String
deriving DecidableEq, Repr

/-- get_extension_element: assert the prefix is registered (an unregistered
prefix raises AssertionError, uncaught - fatal), then build the element. -/
def get_extension_element (exts : List (String × String × String))
    (p : String) : Except Err ExtEl :=
  match alookup exts p with
  | none => .error (.unknownExtensionPfx p)
  | some (nm, uri) => .ok ⟨nm, p, uri⟩

/-- The --xes-extension registration loop: a redeclaration must agree with
the existing binding (else fatal); an unknown prefix is appended. -/
def declExtensions (exts : List (String × String × String)) :
    List (String × String × String) →
      Except Err (List (String × String × String))
  | [] => .ok exts
  | (p, nm, uri) :: rest =>
      match alookup exts p with
      | some prev =>
          if prev = (nm, uri) then declExtensions exts rest
          else .error (.extensionConflict p)
      | none => declExtensions (exts ++ [(p, (nm, uri))]) rest

/-- The names of elementary_attribute_types (the internal _uuid included:
the source's membership assert accepts it too). -/
def typeNames : List String :=
  ["string", "date", "int", "float", "boolean", "id", "_uuid"]

/-- The --type registration loop: the type must name an elementary type and a
redeclaration must agree with the existing binding (else fatal). -/
def declTypes (types : List (AttrName × String)) :
    List (String × String) → Except Err (List (AttrName × String))
  | [] => .ok types
  | (k, t) :: rest =>
      if t ∈ typeNames then
        match alookup types (raw_name_to_name k) with
        | some t0 =>
            if t0 = t then declTypes types rest
            else .error (.typeConflict (raw_name_to_name k))
        | none => declTypes (types ++ [(raw_name_to_name k, t)]) rest
      else .error (.typeUnknown t)

/-- The header loop over the mapping keys: skip a falsy (absent or empty)
namespace part and every already-declared prefix; look every other prefix up
(fatal when unknown) and declare it once. -/
def buildHeaderGo (exts : List (String × String × String)) :
    List String → List AttrName → Except Err (List ExtEl)
  | _, [] => .ok []
  | used, n :: rest =>
      match n.1 with
      | none => buildHeaderGo exts used rest
      | some p =>
          if p = "" ∨ p ∈ used then buildHeaderGo exts used rest
          else
            match get_extension_element exts p with
            | .error e => .error e
            | .ok el =>
                (buildHeaderGo exts (p :: used) rest).map
                  (fun els => el :: els)

/-- The extension declarations of the output header, from the concatenated
event- and trace-mapping keys. -/
def buildHeader (exts : List (String × String × String))
    (names : List AttrName) : Except Err (List ExtEl) :=
  buildHeaderGo exts [] names

/-- Soundness of the header loop: on success the declared prefixes have no
duplicates, are exactly the referenced nonempty prefixes outside the
accumulator, and every element carries its registered name and URI. -/
theorem buildHeaderGo_ok (exts : List (String × String × String))
    (names : List AttrName) (used : List String) (els : List ExtEl)
    (h : buildHeaderGo exts used names = .ok els) :
    (els.map ExtEl.pfx).Nodup ∧
    (∀ p, p ∈ els.map ExtEl.pfx ↔
      (some p ∈ names.map Prod.fst ∧ p ≠ "" ∧ p ∉ used)) ∧
    (∀ el ∈ els, alookup exts el.pfx = some (el.name, el.uri)) := by
  induction names generalizing used els with
  | nil =>
      simp only [buildHeaderGo, Except.ok.injEq] at h
      subst h
      refine ⟨List.nodup_nil, ?_, ?_⟩
      · intro p; simp
      · intro el hel; simp at hel
  | cons n rest ih =>
      obtain ⟨opt, loc⟩ := n
      cases opt with
      | none =>
          simp only [buildHeaderGo] at h
          obtain ⟨ha, hb, hc⟩ := ih used els h
          refine ⟨ha, ?_, hc⟩
          intro p
          rw [hb p]
          simp
      | some p0 =>
          simp only [buildHeaderGo] at h
          by_cases hskip : p0 = "" ∨ p0 ∈ used
          · rw [if_pos hskip] at h
            obtain ⟨ha, hb, hc⟩ := ih used els h
            refine ⟨ha, ?_, hc⟩
            intro p
            rw [hb p]
            constructor
            · rintro ⟨hmem, hne, hnu⟩
              exact ⟨List.mem_cons_of_mem _ hmem, hne, hnu⟩
            · rintro ⟨hmem, hne, hnu⟩
              rcases List.mem_cons.mp hmem with heq | hmem2
              · exfalso
                have heq2 : (some p : Option String) = some p0 := heq
                have hpp : p = p0 := Option.some.inj heq2
                subst hpp
                rcases hskip with h1 | h1
                · exact hne h1
                · exact hnu h1
              · exact ⟨hmem2, hne, hnu⟩
          · rw [if_neg hskip] at h
            push_neg at hskip
            obtain ⟨hne0, hnu0⟩ := hskip
            cases hg : get_extension_element exts p0 with
            | error e => rw [hg] at h; cases h
            | ok el =>
                rw [hg] at h
                cases hrest : buildHeaderGo exts (p0 :: used) rest with
                | error e => rw [hrest] at h; cases h
                | ok els2 =>
                    rw [hrest] at h
                    simp only [Except.map, Except.ok.injEq] at h
                    subst h
                    obtain ⟨ha, hb, hc⟩ := ih (p0 :: used) els2 hrest
                    have hpel : el.pfx = p0 := by
                      unfold get_extension_element at hg
                      cases hl : alookup exts p0 with
                      | none => rw [hl] at hg; cases hg
                      | some nu =>
                          obtain ⟨nm, uri⟩ := nu
                          rw [hl] at hg
                          cases hg
                          rfl
                    refine ⟨?_, ?_, ?_⟩
                    · simp only [List.map_cons, List.nodup_cons, hpel]
                      constructor
                      · intro hmem
                        have := (hb p0).mp hmem
                        exact this.2.2 (List.mem_cons_self _ _)
                      · exact ha
                    · intro p
                      simp only [List.map_cons, hpel, List.mem_cons]
                      constructor
                      · rintro (rfl | hmem)
                        · exact ⟨Or.inl rfl, hne0, hnu0⟩
                        · obtain ⟨hm, hn, hu⟩ := (hb p).mp hmem
                          refine ⟨Or.inr hm, hn, ?_⟩
                          intro hpu
                          exact hu (List.mem_cons_of_mem _ hpu)
                      · rintro ⟨hm, hn, hu⟩
                        by_cases hpp : p = p0
                        · exact Or.inl hpp
                        · refine Or.inr ((hb p).mpr ⟨?_, hn, ?_⟩)
                          · rcases hm with heq | hm2
                            · exfalso
                              have heq2 : (some p : Option String) = some p0 :=
                                heq
                              exact hpp (Option.some.inj heq2)
                            · exact hm2
                          · intro hpu
                            rcases List.mem_cons.mp hpu with heq | hpu2
                            · exact hpp heq
                            · exact hu hpu2
                    · intro e he
                      rcases List.mem_cons.mp he with rfl | he2
                      · unfold get_extension_element at hg
                        cases hl : alookup exts p0 with
                        | none => rw [hl] at hg; cases hg
                        | some nu =>
                            obtain ⟨nm, uri⟩ := nu
                            rw [hl] at hg
                            cases hg
                            exact hl
                      · exact hc e he2

/-- C8 (counterexample): the claim says the concept extension is always
declared even when no mapping rule references it.  With one org-referencing
rule and none referencing concept, the header holds exactly the org
declaration and no concept one. -/
theorem c8_concept_not_always_declared :
    buildHeader extensions [((some "org", "resource") : AttrName)] =
      .ok [⟨"Organizational", "org",
        "http://www.xes-standard.org/org.xesext"⟩] ∧
    "concept" ∉
      ([⟨"Organizational", "org", "http://www.xes-standard.org/org.xesext"⟩] :
        List ExtEl).map ExtEl.pfx := by
  constructor
  · rfl
  · decide

/-- C8 (amended): the output header declares exactly one extension element
per nonempty namespace prefix referenced by an active event- or trace-level
mapping rule, with no duplicates, each carrying its registered display name
and URI; the concept extension, like every other, is declared only when some
mapping rule references it. -/
theorem c8_extension_header_amended (exts : List (String × String × String))
    (names : List AttrName) (els : List ExtEl)
    (h : buildHeader exts names = .ok els) :
    (els.map ExtEl.pfx).Nodup ∧
    (∀ p, p ∈ els.map ExtEl.pfx ↔
      (some p ∈ names.map Prod.fst ∧ p ≠ "")) ∧
    (∀ el ∈ els, alookup exts el.pfx = some (el.name, el.uri)) := by
  obtain ⟨ha, hb, hc⟩ := buildHeaderGo_ok exts names [] els h
  refine ⟨ha, ?_, hc⟩
  intro p
  rw [hb p]
  simp

/-- C8 amended witness: with org, time and a duplicate org reference, the
header prefixes are duplicate-free and concept is declared only if
referenced - here it is not. -/
theorem c8_extension_header_amended_witness :
    (([⟨"Organizational", "org", "http://www.xes-standard.org/org.xesext"⟩,
        ⟨"Time", "time", "http://www.xes-standard.org/time.xesext"⟩] :
      List ExtEl).map ExtEl.pfx).Nodup ∧
    ¬ ("concept" ∈
      (([⟨"Organizational", "org", "http://www.xes-standard.org/org.xesext"⟩,
          ⟨"Time", "time", "http://www.xes-standard.org/time.xesext"⟩] :
        List ExtEl).map ExtEl.pfx)) := by
  have h := c8_extension_header_amended extensions
    [((some "org", "resource") : AttrName), (some "time", "timestamp"),
      (some "org", "role")]
    [⟨"Organizational", "org", "http://www.xes-standard.org/org.xesext"⟩,
      ⟨"Time", "time", "http://www.xes-standard.org/time.xesext"⟩] rfl
  refine ⟨h.1, ?_⟩
  intro hmem
  have hcm := ((h.2.1 "concept").mp hmem).1
  simp at hcm

/-- The trace-attributes accumulator (trace_attributes in the source),
insertion-ordered. -/
abbrev TraceAttrs := List (AttrName × String)

/-- One trace-level mapping rule applied to one member record (the body of
the inner loop at lines 687-697): an absent field skips the rule (KeyError);
the first successful value is recorded; a later successful value must equal
it, else the assert aborts naming the trace and the rule. -/
def stepRule (traceKey : String) (e : Record) (acc : TraceAttrs)
    (r : AttrName × Template) : Except Err TraceAttrs :=
  match evalTemplate r.2 e with
  | none => .ok acc
  | some v =>
      match alookup acc r.1 with
      | none => .ok (acc ++ [(r.1, v)])
      | some w =>
          if w = v then .ok acc
          else .error (.traceAttrMismatch traceKey r.1)

/-- All trace-level rules applied to one member record. -/
def stepRules (traceKey : String) (e : Record) :
    TraceAttrs → List (AttrName × Template) → Except Err TraceAttrs
  | acc, [] => .ok acc
  | acc, r :: rest =>
      match stepRule traceKey e acc r with
      | .error err => .error err
      | .ok acc2 => stepRules traceKey e acc2 rest

/-- The per-trace fold over member records.  (In the source the per-event
element construction sits between the per-event rule checks; it neither
reads nor writes trace_attributes, so the derived attributes and the
mismatch decision are exactly this fold.) -/
def runEvents (traceKey : String) (tms : List (AttrName × Template)) :
    TraceAttrs → List Record → Except Err TraceAttrs
  | acc, [] => .ok acc
  | acc, e :: evs =>
      match stepRules traceKey e acc tms with
      | .error err => .error err
      | .ok acc2 => runEvents traceKey tms acc2 evs

/-- The consistency check for one trace, from the empty accumulator. -/
def checkTraceAttrs (traceKey : String) (tms : List (AttrName × Template))
    (evs : List Record) : Except Err TraceAttrs :=
  runEvents traceKey tms [] evs

/-- Spec-side: the successfully derived raw values of one rule across the
member records, in arrival order. -/
def successes (t : Template) (evs : List Record) : List String :=
  evs.filterMap (fun e => evalTemplate t e)

/-- Spec-side: every pair of values in the list agrees. -/
def allSame (l : List String) : Prop := ∀ w1 ∈ l, ∀ w2 ∈ l, w1 = w2

/-- Compatibility of one recorded value with one evaluation result. -/
def Compat1 (o : Option String) (b : Option String) : Prop :=
  ∀ v w, o = some v → b = some w → w = v

/-- Compatibility of one recorded value with a list of later successes. -/
def CompatL (o : Option String) (l : List String) : Prop :=
  match o with
  | some v => ∀ w ∈ l, w = v
  | none => allSame l

theorem successes_cons (t : Template) (e : Record) (evs : List Record) :
    successes t (e :: evs) =
      match evalTemplate t e with
      | some w => w :: successes t evs
      | none => successes t evs := by
  cases h : evalTemplate t e <;> simp [successes, List.filterMap_cons, h]

theorem allSame_cons (w : String) (l : List String) :
    allSame (w :: l) ↔ ∀ x ∈ l, x = w := by
  constructor
  · intro h x hx
    exact h x (List.mem_cons_of_mem _ hx) w (List.mem_cons_self _ _)
  · intro h x hx y hy
    rcases List.mem_cons.mp hx with rfl | hx2
    · rcases List.mem_cons.mp hy with rfl | hy2
      · rfl
      · exact (h y hy2).symm
    · rcases List.mem_cons.mp hy with rfl | hy2
      · exact h x hx2
      · exact (h x hx2).trans (h y hy2).symm

theorem CompatL_nil (o : Option String) : CompatL o [] := by
  cases o with
  | none => intro w hw; simp at hw
  | some v => intro w hw; simp at hw

/-- The one-step recurrence behind the per-trace fold. -/
theorem CompatL_step (o b : Option String) (l : List String) :
    CompatL o (match b with | some w => w :: l | none => l) ↔
      (Compat1 o b ∧ CompatL (o.or b) l) := by
  cases o with
  | some v =>
      cases b with
      | none =>
          simp only [CompatL, Option.or]
          constructor
          · intro h
            exact ⟨(fun v2 w hv2 hw => nomatch hw), h⟩
          · intro h
            exact h.2
      | some w =>
          simp only [CompatL, Option.or]
          constructor
          · intro h
            have hw : w = v := h w (List.mem_cons_self _ _)
            refine ⟨fun v2 w2 hv2 hw2 => ?_,
              fun x hx => h x (List.mem_cons_of_mem _ hx)⟩
            cases hv2; cases hw2; exact hw
          · intro h x hx
            rcases List.mem_cons.mp hx with rfl | hx2
            · exact h.1 v x rfl rfl
            · exact h.2 x hx2
  | none =>
      cases b with
      | none =>
          simp only [CompatL, Option.or]
          constructor
          · intro h
            exact ⟨(fun v w hv hw => nomatch hv), h⟩
          · intro h
            exact h.2
      | some w =>
          simp only [CompatL, Option.or]
          rw [allSame_cons]
          constructor
          · intro h
            exact ⟨(fun v w2 hv hw2 => nomatch hv), h⟩
          · intro h
            exact h.2

theorem alookup_append_singleton_ne {α β : Type} [DecidableEq α]
    (t : List (α × β)) (k m : α) (v : β) (h : k ≠ m) :
    alookup (t ++ [(k, v)]) m = alookup t m := by
  induction t with
  | nil => simp [alookup, h]
  | cons hd tl ih =>
      obtain ⟨k0, v0⟩ := hd
      by_cases h0 : k0 = m
      · simp [alookup, h0]
      · simp [alookup, h0, ih]

/-- One event step: on success every rule key holds its old value or, when
it was empty, the event evaluation; other keys are untouched; and each rule
evaluation was compatible with what the accumulator held. -/
theorem stepRules_ok (traceKey : String) (e : Record)
    (tms : List (AttrName × Template)) (acc acc2 : TraceAttrs)
    (hnodup : (tms.map Prod.fst).Nodup)
    (h : stepRules traceKey e acc tms = .ok acc2) :
    (∀ m, m ∉ tms.map Prod.fst → alookup acc2 m = alookup acc m) ∧
    (∀ r ∈ tms,
      alookup acc2 r.1 = (alookup acc r.1).or (evalTemplate r.2 e) ∧
      Compat1 (alookup acc r.1) (evalTemplate r.2 e)) := by
  induction tms generalizing acc with
  | nil =>
      simp only [stepRules, Except.ok.injEq] at h
      subst h
      exact ⟨fun m _ => rfl, fun r hr => absurd hr (by simp)⟩
  | cons r0 rest ih =>
      simp only [List.map_cons, List.nodup_cons] at hnodup
      obtain ⟨hr0, hrest⟩ := hnodup
      simp only [stepRules] at h
      cases hs : stepRule traceKey e acc r0 with
      | error err => rw [hs] at h; cases h
      | ok acc1 =>
          rw [hs] at h
          obtain ⟨iha, ihb⟩ := ih acc1 hrest h
          unfold stepRule at hs
          cases hev : evalTemplate r0.2 e with
          | none =>
              simp only [hev] at hs
              cases hs
              refine ⟨?_, ?_⟩
              · intro m hm
                simp only [List.map_cons, List.mem_cons, not_or] at hm
                exact iha m hm.2
              · intro r hr
                rcases List.mem_cons.mp hr with rfl | hr2
                · refine ⟨?_, ?_⟩
                  · rw [iha r.1 hr0, hev]
                    cases alookup acc r.1 <;> simp [Option.or]
                  · intro v w _ hw
                    rw [hev] at hw
                    cases hw
                · exact ihb r hr2
          | some v =>
              simp only [hev] at hs
              cases hl : alookup acc r0.1 with
              | none =>
                  simp only [hl] at hs
                  cases hs
                  refine ⟨?_, ?_⟩
                  · intro m hm
                    simp only [List.map_cons, List.mem_cons, not_or] at hm
                    rw [iha m hm.2]
                    exact alookup_append_singleton_ne acc r0.1 m v
                      (fun hkm => hm.1 hkm.symm)
                  · intro r hr
                    rcases List.mem_cons.mp hr with rfl | hr2
                    · refine ⟨?_, ?_⟩
                      · rw [iha r.1 hr0, hev, hl]
                        rw [alookup_append_right acc r.1 r.1 v hl, if_pos rfl]
                        rfl
                      · intro v2 w hv2 hw
                        rw [hl] at hv2
                        cases hv2
                    · obtain ⟨ha2, hb2⟩ := ihb r hr2
                      have hne : r0.1 ≠ r.1 := by
                        intro hkk
                        exact hr0 (hkk ▸ (List.mem_map_of_mem Prod.fst hr2))
                      rw [alookup_append_singleton_ne acc r0.1 r.1 v hne] at ha2 hb2
                      exact ⟨ha2, hb2⟩
              | some w =>
                  simp only [hl] at hs
                  by_cases hwv : w = v
                  · rw [if_pos hwv] at hs
                    cases hs
                    refine ⟨?_, ?_⟩
                    · intro m hm
                      simp only [List.map_cons, List.mem_cons, not_or] at hm
                      exact iha m hm.2
                    · intro r hr
                      rcases List.mem_cons.mp hr with rfl | hr2
                      · refine ⟨?_, ?_⟩
                        · rw [iha r.1 hr0, hev, hl]
                          rfl
                        · intro v2 w2 hv2 hw2
                          rw [hl] at hv2
                          rw [hev] at hw2
                          cases hv2; cases hw2
                          exact hwv.symm
                      · exact ihb r hr2
                  · rw [if_neg hwv] at hs
                    cases hs

/-- One event step: when every rule evaluation is compatible with the
accumulator, the step succeeds. -/
theorem stepRules_exists (traceKey : String) (e : Record)
    (tms : List (AttrName × Template)) (acc : TraceAttrs)
    (hnodup : (tms.map Prod.fst).Nodup)
    (h : ∀ r ∈ tms, Compat1 (alookup acc r.1) (evalTemplate r.2 e)) :
    ∃ acc2, stepRules traceKey e acc tms = .ok acc2 := by
  induction tms generalizing acc with
  | nil => exact ⟨acc, rfl⟩
  | cons r0 rest ih =>
      simp only [List.map_cons, List.nodup_cons] at hnodup
      obtain ⟨hr0, hrest⟩ := hnodup
      have hc0 := h r0 (List.mem_cons_self _ _)
      simp only [stepRules]
      cases hev : evalTemplate r0.2 e with
      | none =>
          simp only [stepRule, hev]
          exact ih acc hrest (fun r hr => h r (List.mem_cons_of_mem _ hr))
      | some v =>
          simp only [stepRule, hev]
          cases hl : alookup acc r0.1 with
          | none =>
              simp only
              refine ih (acc ++ [(r0.1, v)]) hrest ?_
              intro r hr
              have hne : r0.1 ≠ r.1 := by
                intro hkk
                exact hr0 (hkk ▸ (List.mem_map_of_mem Prod.fst hr))
              rw [alookup_append_singleton_ne acc r0.1 r.1 v hne]
              exact h r (List.mem_cons_of_mem _ hr)
          | some w =>
              simp only [hl]
              have hwv : w = v := (hc0 w v hl hev).symm
              rw [if_pos hwv]
              exact ih acc hrest (fun r hr => h r (List.mem_cons_of_mem _ hr))

/-- One event step: a mismatch error names the trace and a rule whose
evaluation genuinely disagrees with the accumulator. -/
theorem stepRules_err (traceKey : String) (e : Record)
    (tms : List (AttrName × Template)) (acc : TraceAttrs) (err : Err)
    (hnodup : (tms.map Prod.fst).Nodup)
    (h : stepRules traceKey e acc tms = .error err) :
    ∃ r ∈ tms, err = .traceAttrMismatch traceKey r.1 ∧
      ¬ Compat1 (alookup acc r.1) (evalTemplate r.2 e) := by
  induction tms generalizing acc with
  | nil => simp [stepRules] at h
  | cons r0 rest ih =>
      simp only [List.map_cons, List.nodup_cons] at hnodup
      obtain ⟨hr0, hrest⟩ := hnodup
      simp only [stepRules] at h
      cases hs : stepRule traceKey e acc r0 with
      | error e0 =>
          rw [hs] at h
          cases h
          unfold stepRule at hs
          cases hev : evalTemplate r0.2 e with
          | none =>
              simp only [hev] at hs
              exact Except.noConfusion hs
          | some v =>
              simp only [hev] at hs
              cases hl : alookup acc r0.1 with
              | none =>
                  simp only [hl] at hs
                  exact Except.noConfusion hs
              | some w =>
                  simp only [hl] at hs
                  by_cases hwv : w = v
                  · rw [if_pos hwv] at hs; cases hs
                  · rw [if_neg hwv] at hs
                    cases hs
                    refine ⟨r0, List.mem_cons_self _ _, rfl, ?_⟩
                    intro hc
                    exact hwv (hc w v hl hev).symm
      | ok acc1 =>
          rw [hs] at h
          obtain ⟨r, hr, herr, hnc⟩ := ih acc1 hrest h
          have hne : r0.1 ≠ r.1 ∨ r0.1 = r.1 := (ne_or_eq _ _)
          unfold stepRule at hs
          refine ⟨r, List.mem_cons_of_mem _ hr, herr, ?_⟩
          intro hc
          apply hnc
          cases hev : evalTemplate r0.2 e with
          | none =>
              simp only [hev] at hs
              cases hs
              exact hc
          | some v =>
              simp only [hev] at hs
              cases hl : alookup acc r0.1 with
              | none =>
                  simp only [hl] at hs
                  cases hs
                  have hner : r0.1 ≠ r.1 := by
                    intro hkk
                    exact hr0 (hkk ▸ (List.mem_map_of_mem Prod.fst hr))
                  rw [alookup_append_singleton_ne acc r0.1 r.1 v hner]
                  exact hc
              | some w =>
                  simp only [hl] at hs
                  by_cases hwv : w = v
                  · rw [if_pos hwv] at hs
                    cases hs
                    exact hc
                  · rw [if_neg hwv] at hs
                    cases hs

/-- The per-trace fold succeeds exactly when every rule is list-compatible
with the accumulator across all member records. -/
theorem runEvents_ok_iff (traceKey : String)
    (tms : List (AttrName × Template)) (evs : List Record) (acc : TraceAttrs)
    (hnodup : (tms.map Prod.fst).Nodup) :
    (∃ acc2, runEvents traceKey tms acc evs = .ok acc2) ↔
      ∀ r ∈ tms, CompatL (alookup acc r.1) (successes r.2 evs) := by
  induction evs generalizing acc with
  | nil =>
      simp only [runEvents, successes]
      constructor
      · intro _ r _
        exact CompatL_nil _
      · intro _
        exact ⟨acc, rfl⟩
  | cons e evs ih =>
      simp only [runEvents]
      constructor
      · rintro ⟨acc2, h⟩
        cases hs : stepRules traceKey e acc tms with
        | error err => rw [hs] at h; cases h
        | ok acc1 =>
            rw [hs] at h
            obtain ⟨_, hb⟩ := stepRules_ok traceKey e tms acc acc1 hnodup hs
            intro r hr
            obtain ⟨hor, hc1⟩ := hb r hr
            rw [successes_cons, CompatL_step]
            refine ⟨hc1, ?_⟩
            rw [← hor]
            exact (ih acc1).mp ⟨acc2, h⟩ r hr
      · intro h
        have hc1 : ∀ r ∈ tms, Compat1 (alookup acc r.1) (evalTemplate r.2 e) := by
          intro r hr
          have := h r hr
          rw [successes_cons, CompatL_step] at this
          exact this.1
        obtain ⟨acc1, hs⟩ := stepRules_exists traceKey e tms acc hnodup hc1
        rw [hs]
        refine (ih acc1).mpr ?_
        intro r hr
        obtain ⟨hor, _⟩ := (stepRules_ok traceKey e tms acc acc1 hnodup hs).2 r hr
        rw [hor]
        have := h r hr
        rw [successes_cons, CompatL_step] at this
        exact this.2

/-- A per-trace fold error names the trace and a rule whose successes are
not list-compatible with the accumulator. -/
theorem runEvents_err (traceKey : String)
    (tms : List (AttrName × Template)) (evs : List Record) (acc : TraceAttrs)
    (err : Err) (hnodup : (tms.map Prod.fst).Nodup)
    (h : runEvents traceKey tms acc evs = .error err) :
    ∃ r ∈ tms, err = .traceAttrMismatch traceKey r.1 ∧
      ¬ CompatL (alookup acc r.1) (successes r.2 evs) := by
  induction evs generalizing acc with
  | nil => simp [runEvents] at h
  | cons e evs ih =>
      simp only [runEvents] at h
      cases hs : stepRules traceKey e acc tms with
      | error e0 =>
          rw [hs] at h
          cases h
          obtain ⟨r, hr, herr, hnc⟩ := stepRules_err traceKey e tms acc err hnodup hs
          refine ⟨r, hr, herr, ?_⟩
          intro hc
          rw [successes_cons, CompatL_step] at hc
          exact hnc hc.1
      | ok acc1 =>
          rw [hs] at h
          obtain ⟨r, hr, herr, hnc⟩ := ih acc1 h
          obtain ⟨hor, _⟩ := (stepRules_ok traceKey e tms acc acc1 hnodup hs).2 r hr
          refine ⟨r, hr, herr, ?_⟩
          intro hc
          rw [successes_cons, CompatL_step] at hc
          apply hnc
          rw [hor]
          exact hc.2

/-- C2: for every trace and trace-level rule set whose keys are distinct (a
Python dict guarantees that), the consistency check succeeds exactly when
every rule derives pairwise-equal values over the member records for which
it evaluates; when it fails, the error names the trace and a rule whose
successfully evaluated values genuinely diverge - so divergence between two
successfully evaluated values is always fatal. -/
theorem c2_trace_attr_consistency (traceKey : String)
    (tms : List (AttrName × Template)) (evs : List Record)
    (hnodup : (tms.map Prod.fst).Nodup) :
    ((∃ acc, checkTraceAttrs traceKey tms evs = .ok acc) ↔
      ∀ r ∈ tms, allSame (successes r.2 evs)) ∧
    (∀ err, checkTraceAttrs traceKey tms evs = .error err →
      ∃ r ∈ tms, err = .traceAttrMismatch traceKey r.1 ∧
        ¬ allSame (successes r.2 evs)) := by
  constructor
  · rw [checkTraceAttrs.eq_def]
    rw [runEvents_ok_iff traceKey tms evs [] hnodup]
    constructor
    · intro h r hr
      exact h r hr
    · intro h r hr
      exact h r hr
  · intro err herr
    rw [checkTraceAttrs.eq_def] at herr
    obtain ⟨r, hr, he, hnc⟩ := runEvents_err traceKey tms evs [] err hnodup herr
    exact ⟨r, hr, he, hnc⟩

/-- C2 witness: one rule deriving from field f; two member records with
values 1 and 2 abort naming the trace and the rule, while agreeing records
pass. -/
theorem c2_trace_attr_consistency_witness :
    checkTraceAttrs "T" [((none, "a"), [Tok.fld "f"])]
        [[("f", "1")], [("f", "2")]] =
      .error (.traceAttrMismatch "T" (none, "a")) ∧
    (∃ acc, checkTraceAttrs "T" [((none, "a"), [Tok.fld "f"])]
      [[("f", "1")], [("f", "1")]] = .ok acc) := by
  constructor
  · rfl
  · refine (c2_trace_attr_consistency "T"
      [((none, "a"), [Tok.fld "f"])] [[("f", "1")], [("f", "1")]]
      (by decide)).1.mpr ?_
    intro r hr
    rcases List.mem_cons.mp hr with rfl | hr2
    · intro w1 hw1 w2 hw2
      simp [successes, evalTemplate, alookup] at hw1 hw2
      rw [hw1, hw2]
    · simp at hr2

/-- UTF-8 bytes of one character (what a Python 2 str stores for text read
as UTF-8). -/
def charUtf8 (c : Char) : List Nat :=
  let n := c.toNat
  if n < 128 then [n]
  else if n < 2048 then [192 + n / 64, 128 + n % 64]
  else if n < 65536 then [224 + n / 4096, 128 + (n / 64) % 64, 128 + n % 64]
  else [240 + n / 262144, 128 + (n / 4096) % 64, 128 + (n / 64) % 64,
    128 + n % 64]

/-- The bytes of a string. -/
def strBytes (s : String) : List Nat := s.data.flatMap charUtf8

/-- 2 to the 64th: CPython longs on a 64-bit build wrap at this modulus. -/
def MOD64 : Nat := 18446744073709551616

/-- The CPython 2.7 string hash (64-bit build, unsigned two's-complement
view): x starts as the first byte shifted left 7, then for every byte
x = (1000003 * x) xor byte, then x xor length; the reserved value -1 (here
MOD64 - 1) becomes -2.  The empty string hashes to 0. -/
def pyhash (s : String) : Nat :=
  match strBytes s with
  | [] => 0
  | b :: rest =>
      let x0 := (b <<< 7) % MOD64
      let x1 := (b :: rest).foldl (fun x c => (1000003 * x % MOD64) ^^^ c) x0
      let x2 := x1 ^^^ (b :: rest).length
      if x2 = MOD64 - 1 then MOD64 - 2 else x2

/-- The eight empty slots of a fresh small CPython dict.  No resize happens
below six entries, and every dict modelled this way here holds at most
five. -/
def emptySlots : List (Option String) := List.replicate 8 none

/-- The collision probe of CPython lookdict: i = 5*i + perturb + 1 (a
size_t, wrapping at 2^64), slot = i mod 8, perturb shifted right 5 each
round.  Fuel bounds the search; 64 rounds far exceed what 8 slots need. -/
def probeFind (slots : List (Option String)) (k : String) :
    Nat → Nat → Nat → Option Nat
  | 0, _, _ => none
  | fuel + 1, i, perturb =>
      match slots.get? ((5 * i + perturb + 1) % MOD64 % 8) with
      | some none => some ((5 * i + perturb + 1) % MOD64 % 8)
      | some (some k2) =>
          if k2 = k then some ((5 * i + perturb + 1) % MOD64 % 8)
          else probeFind slots k fuel ((5 * i + perturb + 1) % MOD64)
            (perturb / 32)
      | none => none

/-- Find the slot for a key: first probe at hash mod 8, then the perturbed
sequence seeded with the full hash. -/
def findSlot (slots : List (Option String)) (k : String) : Option Nat :=
  match slots.get? (pyhash k % 8) with
  | some none => some (pyhash k % 8)
  | some (some k2) =>
      if k2 = k then some (pyhash k % 8)
      else probeFind slots k 64 (pyhash k % 8) (pyhash k)
  | none => none

/-- Insert a key into the table (none only on fuel exhaustion, which a
witness below shows does not happen on the concrete runs). -/
def dictInsert (slots : List (Option String)) (k : String) :
    Option (List (Option String)) :=
  (findSlot slots k).map (fun idx => slots.set idx (some k))

def dictInsertList :
    List (Option String) → List String → Option (List (Option String))
  | slots, [] => some slots
  | slots, k :: ks =>
      match dictInsert slots k with
      | none => none
      | some s2 => dictInsertList s2 ks

/-- The iteration order of a fresh small dict holding the given keys: insert
them in order, then walk the slots in slot order. -/
def pydictKeys (ks : List String) : Option (List String) :=
  (dictInsertList emptySlots ks).map (fun slots => slots.filterMap id)

/-- Lines 674-677: `if args.max_traces:` - None and 0 are falsy, so pruning
happens only for a positive configured count, keeping the first N keys of
traces_in_order. -/
def pruneKeys (maxTraces : Option Nat) (order : List String) : List String :=
  match maxTraces with
  | some n => if n = 0 then order else order.take n
  | none => order

/-- The keys the assembly loop `for trace in traces:` visits, in its
iteration order.  When pruning happened, traces was rebuilt by a fresh dict
comprehension over the pruned keys, so the loop walks the hash-table slot
order of inserting those keys into a fresh dict - modelled exactly
(pydictKeys).  Without pruning the loop walks the dict built incrementally
during routing; every use of that branch below is insensitive to its order,
which this model renders as discovery order. -/
def emissionKeys (maxTraces : Option Nat) (order : List String) :
    Option (List String) :=
  match maxTraces with
  | some n => if n = 0 then some order else pydictKeys (order.take n)
  | none => some order

theorem mem_filterMap_id_of_get? (l : List (Option String)) (i : Nat)
    (k : String) (h : l.get? i = some (some k)) : k ∈ l.filterMap id := by
  induction l generalizing i with
  | nil => simp at h
  | cons hd tl ih =>
      cases i with
      | zero =>
          simp only [List.get?] at h
          cases h
          simp [List.filterMap_cons]
      | succ j =>
          simp only [List.get?] at h
          cases hd with
          | none => exact ih j h
          | some a =>
              simp only [List.filterMap_cons]
              exact List.mem_cons_of_mem _ (ih j h)

theorem filterMap_id_set_none (l : List (Option String)) (i : Nat)
    (k : String) (h : l.get? i = some none) :
    ((l.set i (some k)).filterMap id).Perm (k :: l.filterMap id) := by
  induction l generalizing i with
  | nil => simp at h
  | cons hd tl ih =>
      cases i with
      | zero =>
          simp only [List.get?] at h
          cases h
          exact List.Perm.refl _
      | succ j =>
          simp only [List.get?] at h
          cases hd with
          | none => exact ih j h
          | some a =>
              show ((some a :: tl.set j (some k)).filterMap id).Perm
                (k :: a :: tl.filterMap id)
              simp only [List.filterMap_cons]
              exact ((ih j h).cons a).trans (List.Perm.swap k a _)

theorem probeFind_spec (slots : List (Option String)) (k : String)
    (fuel i perturb idx : Nat)
    (h : probeFind slots k fuel i perturb = some idx) :
    slots.get? idx = some none ∨ slots.get? idx = some (some k) := by
  induction fuel generalizing i perturb with
  | zero => cases h
  | succ f ih =>
      cases hg : slots.get? ((5 * i + perturb + 1) % MOD64 % 8) with
      | none =>
          simp only [probeFind, hg] at h
          exact Option.noConfusion h
      | some slot =>
          cases slot with
          | none =>
              simp only [probeFind, hg] at h
              cases h
              exact Or.inl hg
          | some k2 =>
              simp only [probeFind, hg] at h
              by_cases hk : k2 = k
              · rw [if_pos hk] at h
                cases h
                subst hk
                exact Or.inr hg
              · rw [if_neg hk] at h
                exact ih _ _ h

theorem findSlot_spec (slots : List (Option String)) (k : String) (idx : Nat)
    (h : findSlot slots k = some idx) :
    slots.get? idx = some none ∨ slots.get? idx = some (some k) := by
  cases hg : slots.get? (pyhash k % 8) with
  | none =>
      simp only [findSlot, hg] at h
      exact Option.noConfusion h
  | some slot =>
      cases slot with
      | none =>
          simp only [findSlot, hg] at h
          cases h
          exact Or.inl hg
      | some k2 =>
          simp only [findSlot, hg] at h
          by_cases hk : k2 = k
          · rw [if_pos hk] at h
            cases h
            subst hk
            exact Or.inr hg
          · rw [if_neg hk] at h
            exact probeFind_spec slots k 64 _ _ idx h

/-- Inserting a fresh key fills exactly one empty slot. -/
theorem dictInsert_fresh_perm (slots slots2 : List (Option String))
    (k : String) (hk : k ∉ slots.filterMap id)
    (h : dictInsert slots k = some slots2) :
    (slots2.filterMap id).Perm (k :: slots.filterMap id) := by
  unfold dictInsert at h
  cases hf : findSlot slots k with
  | none => rw [hf] at h; cases h
  | some idx =>
      rw [hf] at h
      cases h
      rcases findSlot_spec slots k idx hf with hs | hs
      · exact filterMap_id_set_none slots idx k hs
      · exact absurd (mem_filterMap_id_of_get? slots idx k hs) hk

/-- Inserting distinct fresh keys yields exactly those keys (as a
multiset). -/
theorem dictInsertList_perm (ks : List String)
    (slots slots2 : List (Option String)) (hnd : ks.Nodup)
    (hfresh : ∀ k ∈ ks, k ∉ slots.filterMap id)
    (h : dictInsertList slots ks = some slots2) :
    (slots2.filterMap id).Perm (ks ++ slots.filterMap id) := by
  induction ks generalizing slots with
  | nil =>
      simp only [dictInsertList, Option.some.injEq] at h
      subst h
      simp
  | cons k ks ih =>
      simp only [List.nodup_cons] at hnd
      simp only [dictInsertList] at h
      cases hi : dictInsert slots k with
      | none => rw [hi] at h; cases h
      | some s2 =>
          rw [hi] at h
          have hperm := dictInsert_fresh_perm slots s2 k
            (hfresh k (List.mem_cons_self _ _)) hi
          have hfresh2 : ∀ k2 ∈ ks, k2 ∉ s2.filterMap id := by
            intro k2 hk2 hmem
            have hm2 : k2 ∈ k :: slots.filterMap id := hperm.subset hmem
            rcases List.mem_cons.mp hm2 with rfl | hm3
            · exact hnd.1 hk2
            · exact hfresh k2 (List.mem_cons_of_mem _ hk2) hm3
          have hrec := ih s2 hnd.2 hfresh2 h
          exact hrec.trans
            ((List.Perm.append_left ks hperm).trans List.perm_middle)

theorem pydictKeys_perm (ks out : List String) (hnd : ks.Nodup)
    (h : pydictKeys ks = some out) : out.Perm ks := by
  unfold pydictKeys at h
  cases hi : dictInsertList emptySlots ks with
  | none => rw [hi] at h; cases h
  | some slots =>
      rw [hi] at h
      cases h
      have he : emptySlots.filterMap id = [] := rfl
      have hp := dictInsertList_perm ks emptySlots slots hnd
        (by intro k _ hm; rw [he] at hm; exact absurd hm (List.not_mem_nil k))
        hi
      rw [he] at hp
      simpa using hp

/-- Discovery order always mirrors the table keys and holds no
duplicates. -/
theorem routeGo_order_invariants (tns : List Template) (rs : List Record)
    (st : Routed) (hkeys : st.order = st.tab.map Prod.fst)
    (hnd : st.order.Nodup) :
    (routeGo tns st rs).order = (routeGo tns st rs).tab.map Prod.fst ∧
      (routeGo tns st rs).order.Nodup := by
  induction rs generalizing st with
  | nil => exact ⟨hkeys, hnd⟩
  | cons e rest ih =>
      simp only [routeGo]
      cases hr : routeFirst tns e with
      | none => exact ih st hkeys hnd
      | some k =>
          apply ih
          · unfold addRecord
            cases hl : alookup st.tab k with
            | none => simp [hkeys]
            | some l => simp [hkeys, aupdate_keys]
          · unfold addRecord
            cases hl : alookup st.tab k with
            | none =>
                have hk : k ∉ st.order := by
                  rw [hkeys]
                  exact (alookup_eq_none st.tab k).mp hl
                simp [List.nodup_append, hnd, List.disjoint_singleton]
                intro hmem
                exact hk hmem
            | some l => simpa using hnd

theorem routeAll_order_nodup (tns : List Template) (rs : List Record) :
    (routeAll tns rs).order.Nodup :=
  (routeGo_order_invariants tns rs ⟨[], []⟩ rfl List.nodup_nil).2

/-- C4 (counterexample): the claim says the trace elements appear in the
output in discovery order.  Routing records X then Y discovers the keys in
the order X, Y; pruning to 2 keeps both; but the assembly loop walks the
rebuilt dict in hash-slot order, emitting Y before X (hash("X") mod 8 = 1,
hash("Y") mod 8 = 0 under the CPython 2.7 string hash). -/
theorem c4_emission_order_counterexample :
    (routeAll (traceNames [(((some "concept", "name") : AttrName),
        [Tok.fld "name"])])
      [[("name", "X")], [("name", "Y")]]).order = ["X", "Y"] ∧
    emissionKeys (some 2) ["X", "Y"] = some ["Y", "X"] ∧
    (["Y", "X"] : List String) ≠ ["X", "Y"] := by
  refine ⟨rfl, by decide, by decide⟩

/-- C4 (amended): for a configured positive maximum N the pruned table is
keyed by exactly the first N trace keys in original discovery order (all
keys when fewer were discovered), and the assembly emits exactly those
traces, each once - but in the hash table's iteration order, which need not
be the discovery order. -/
theorem c4_max_traces_amended (tm : List (AttrName × Template))
    (rs : List Record) (n : Nat) (hn : 0 < n) :
    pruneKeys (some n) (routeAll (traceNames tm) rs).order =
      (routeAll (traceNames tm) rs).order.take n ∧
    (∀ out,
      emissionKeys (some n) (routeAll (traceNames tm) rs).order = some out →
      out.Perm ((routeAll (traceNames tm) rs).order.take n)) := by
  have hne : n ≠ 0 := Nat.pos_iff_ne_zero.mp hn
  constructor
  · simp [pruneKeys, hne]
  · intro out hout
    simp only [emissionKeys, hne, if_neg] at hout
    have hnd : ((routeAll (traceNames tm) rs).order.take n).Nodup :=
      (List.take_sublist n _).nodup (routeAll_order_nodup _ rs)
    exact pydictKeys_perm _ out hnd hout

/-- C4 amended witness: the counterexample's run - prune keeps take 2 =
X, Y and the emitted keys Y, X are a permutation of them. -/
theorem c4_max_traces_amended_witness :
    pruneKeys (some 2)
        (routeAll (traceNames [(((some "concept", "name") : AttrName),
          [Tok.fld "name"])]) [[("name", "X")], [("name", "Y")]]).order =
      (routeAll (traceNames [(((some "concept", "name") : AttrName),
        [Tok.fld "name"])]) [[("name", "X")], [("name", "Y")]]).order.take 2 ∧
    (["Y", "X"] : List String).Perm
      ((routeAll (traceNames [(((some "concept", "name") : AttrName),
        [Tok.fld "name"])]) [[("name", "X")], [("name", "Y")]]).order.take 2) := by
  have h := c4_max_traces_amended
    [(((some "concept", "name") : AttrName), [Tok.fld "name"])]
    [[("name", "X")], [("name", "Y")]] 2 (by decide)
  exact ⟨h.1, h.2 ["Y", "X"] (by decide)⟩

/-- The configuration the core consumes (after CLI parsing, which is
external): user extensions, user types, the two mapping-rule lists in
declaration order, the pseudonymised attribute lists, the preserve flag and
the maximum trace count. -/
structure Config where
  xesExtensions : List (String × String × String)
  types : List (String × String)
  eventAttrs : List (String × Template)
  traceAttrs : List (String × Template)
  pseudoNames : List String
  pseudoPlaces : List String
  pseudoUuids : List String
  preserve : Bool
  maxTraces : Option Nat

/-- attributes_to_pseudonymise: a dict comprehension over the name, place
and uuid attribute lists concatenated in that order - a later entry for the
same attribute wins. -/
def attributesToPseudonymise (cfg : Config) : List (String × PoolKind) :=
  (cfg.pseudoNames.map (fun a => (a, PoolKind.name)) ++
    cfg.pseudoPlaces.map (fun a => (a, PoolKind.place)) ++
    cfg.pseudoUuids.map (fun a => (a, PoolKind.uuid))).foldl
    (fun d kv => dinsert d kv.1 kv.2) []

/-- The event/trace mapping dicts: raw names parsed, later duplicates
overwrite. -/
def buildMappings (attrs : List (String × Template)) :
    List (AttrName × Template) :=
  attrs.foldl (fun d kv => dinsert d (raw_name_to_name kv.1) kv.2) []

/-- Lines 645-649: rewrite each pseudonymised field of a record, threading
the pool state; a pool exhaustion aborts. -/
def pseudoRecord (gen : Nat → String) (pmap : List (String × PoolKind)) :
    Record → PseudoState → Except Err (Record × PseudoState)
  | [], st => .ok ([], st)
  | (a, v) :: rest, st =>
      match alookup pmap a with
      | none =>
          (pseudoRecord gen pmap rest st).map (fun p => ((a, v) :: p.1, p.2))
      | some k =>
          match pseudonymise gen k v st with
          | .error e => .error e
          | .ok (v2, st2) =>
              (pseudoRecord gen pmap rest st2).map
                (fun p => ((a, v2) :: p.1, p.2))

/-- The first pass (lines 643-663): pseudonymise, then route each record. -/
def routePass (gen : Nat → String) (pmap : List (String × PoolKind))
    (tns : List Template) :
    List Record → Routed → PseudoState → Except Err Routed
  | [], st, _ => .ok st
  | e :: rest, st, ps =>
      match pseudoRecord gen pmap e ps with
      | .error err => .error err
      | .ok (e2, ps2) =>
          match routeFirst tns e2 with
          | some k => routePass gen pmap tns rest (addRecord st k e2) ps2
          | none => routePass gen pmap tns rest st ps2

/-- One emitted trace element: its key, its trace-level attribute elements
and its member event elements. -/
structure TraceOut where
  key : String
  attrs : List XesAttr
  events : List (List XesAttr)
deriving Repr

/-- Lines 700-706: build the trace-attribute elements; ValueError is caught
(the attribute is skipped), anything else - the date TypeError - aborts. -/
def traceAttrElements (parse : String → Option PyDateTime)
    (types : List (AttrName × String)) :
    TraceAttrs → Except Err (List XesAttr)
  | [] => .ok []
  | (n, v) :: rest =>
      match make_element parse types n v with
      | .dropped => traceAttrElements parse types rest
      | .fatal e => .error e
      | .ok el =>
          (traceAttrElements parse types rest).map (fun els => el :: els)

/-- The per-trace event loop (lines 684-698): the event element first, then
the trace-attribute consistency step, exactly interleaved as in the
source. -/
def traceEventsGo (parse : String → Option PyDateTime)
    (types : List (AttrName × String)) (evM tmM : List (AttrName × Template))
    (preserve : Bool) (traceKey : String) :
    TraceAttrs → List Record → Except Err (List (List XesAttr) × TraceAttrs)
  | acc, [] => .ok ([], acc)
  | acc, e :: evs =>
      match dict_to_element parse types evM e preserve with
      | .error err => .error err
      | .ok el =>
          match stepRules traceKey e acc tmM with
          | .error err => .error err
          | .ok acc2 =>
              (traceEventsGo parse types evM tmM preserve traceKey acc2
                evs).map (fun p => (el :: p.1, p.2))

/-- One iteration of the assembly loop body (lines 680-707). -/
def assembleTrace (parse : String → Option PyDateTime)
    (types : List (AttrName × String)) (evM tmM : List (AttrName × Template))
    (preserve : Bool) (traceKey : String) (evs : List Record) :
    Except Err TraceOut :=
  match traceEventsGo parse types evM tmM preserve traceKey [] evs with
  | .error e => .error e
  | .ok (els, acc) =>
      match traceAttrElements parse types acc with
      | .error e => .error e
      | .ok attrEls => .ok ⟨traceKey, attrEls, els⟩

/-- The assembly loop over the emitted keys. -/
def assembleAll (parse : String → Option PyDateTime)
    (types : List (AttrName × String)) (evM tmM : List (AttrName × Template))
    (preserve : Bool) (tab : List (String × List Record)) :
    List String → Except Err (List TraceOut)
  | [] => .ok []
  | k :: ks =>
      match assembleTrace parse types evM tmM preserve k
          ((alookup tab k).getD []) with
      | .error e => .error e
      | .ok tr =>
          (assembleAll parse types evM tmM preserve tab ks).map
            (fun l => tr :: l)

/-- The assembled document: header declarations, then trace elements. -/
structure Output where
  header : List ExtEl
  traces : List TraceOut
deriving Repr

/-- The whole engine in source order: register user extensions, register
user types, build the header from the mapping keys, then read and route the
records (pseudonymising on the way), prune, and assemble.  gen is the uuid
pool generator, parse the external date parser, and ps0 the initial pool
state (the shuffled name/place lists - data the claims do not depend on).
The getD fallback covers only the dict-probe fuel of the order model and is
unreachable in every run examined here. -/
def mainModel (gen : Nat → String) (parse : String → Option PyDateTime)
    (cfg : Config) (ps0 : PseudoState) (rs : List Record) :
    Except Err Output :=
  let pmap := attributesToPseudonymise cfg
  let evM := buildMappings cfg.eventAttrs
  let tmM := buildMappings cfg.traceAttrs
  match declExtensions extensions cfg.xesExtensions with
  | .error e => .error e
  | .ok exts =>
      match declTypes typed_attributes cfg.types with
      | .error e => .error e
      | .ok types =>
          match buildHeader exts (evM.map Prod.fst ++ tmM.map Prod.fst) with
          | .error e => .error e
          | .ok header =>
              match routePass gen pmap (traceNames tmM) rs ⟨[], []⟩ ps0 with
              | .error e => .error e
              | .ok routed =>
                  match assembleAll parse types evM tmM cfg.preserve
                      routed.tab
                      ((emissionKeys cfg.maxTraces routed.order).getD
                        (pruneKeys cfg.maxTraces routed.order)) with
                  | .error e => .error e
                  | .ok traces => .ok ⟨header, traces⟩

/-- When some referenced nonempty prefix is unregistered, the header loop
fails on a referenced unregistered prefix. -/
theorem buildHeaderGo_unknown (exts : List (String × String × String))
    (names : List AttrName) (used : List String)
    (hused : ∀ u ∈ used, (alookup exts u).isSome = true) (p : String)
    (hp : some p ∈ names.map Prod.fst) (hne : p ≠ "")
    (hunk : alookup exts p = none) :
    ∃ q, alookup exts q = none ∧ some q ∈ names.map Prod.fst ∧ q ≠ "" ∧
      buildHeaderGo exts used names = .error (.unknownExtensionPfx q) := by
  induction names generalizing used with
  | nil => simp at hp
  | cons n rest ih =>
      obtain ⟨opt, loc⟩ := n
      cases opt with
      | none =>
          have hp2 : some p ∈ rest.map Prod.fst := by
            rcases List.mem_cons.mp hp with heq | h2
            · exact absurd heq (by simp)
            · exact h2
          obtain ⟨q, hq1, hq2, hq3, hq4⟩ := ih used hused hp2
          exact ⟨q, hq1, List.mem_cons_of_mem _ hq2, hq3,
            by simpa [buildHeaderGo] using hq4⟩
      | some p0 =>
          by_cases hskip : p0 = "" ∨ p0 ∈ used
          · have hp2 : some p ∈ rest.map Prod.fst := by
              rcases List.mem_cons.mp hp with heq | h2
              · exfalso
                have hpp : p = p0 := by
                  have heq2 : (some p : Option String) = some p0 := heq
                  exact Option.some.inj heq2
                subst hpp
                rcases hskip with h1 | h1
                · exact hne h1
                · have := hused p h1
                  rw [hunk] at this
                  cases this
              · exact h2
            obtain ⟨q, hq1, hq2, hq3, hq4⟩ := ih used hused hp2
            refine ⟨q, hq1, List.mem_cons_of_mem _ hq2, hq3, ?_⟩
            simpa [buildHeaderGo, hskip] using hq4
          · cases hl : alookup exts p0 with
            | none =>
                have hne0 : p0 ≠ "" := by
                  intro h0
                  exact hskip (Or.inl h0)
                refine ⟨p0, hl, ?_, hne0, ?_⟩
                · exact List.mem_cons_self _ _
                · simp [buildHeaderGo, hskip, get_extension_element, hl]
            | some nu =>
                have hpp : p ≠ p0 := by
                  intro h0
                  rw [h0, hl] at hunk
                  cases hunk
                have hp2 : some p ∈ rest.map Prod.fst := by
                  rcases List.mem_cons.mp hp with heq | h2
                  · exfalso
                    have heq2 : (some p : Option String) = some p0 := heq
                    exact hpp (Option.some.inj heq2)
                  · exact h2
                have hused2 : ∀ u ∈ p0 :: used,
                    (alookup exts u).isSome = true := by
                  intro u hu
                  rcases List.mem_cons.mp hu with rfl | hu2
                  · rw [hl]; rfl
                  · exact hused u hu2
                obtain ⟨q, hq1, hq2, hq3, hq4⟩ := ih (p0 :: used) hused2 hp2
                refine ⟨q, hq1, List.mem_cons_of_mem _ hq2, hq3, ?_⟩
                obtain ⟨nm, uri⟩ := nu
                simp [buildHeaderGo, hskip, get_extension_element, hl, hq4,
                  Except.map]

/-- C10: a mapping rule whose target carries a namespace prefix that is
neither a built-in extension nor declared via configuration aborts the run
during header construction: the same unknown-prefix error comes back for
every record stream, so the failure precedes any record consumption.  (This
failure mode is absent from the spec's fatal-error inventory.) -/
theorem c10_unknown_mapping_extension_fatal (gen : Nat → String)
    (parse : String → Option PyDateTime) (cfg : Config) (ps0 : PseudoState)
    (exts : List (String × String × String))
    (types : List (AttrName × String)) (p : String)
    (hexts : declExtensions extensions cfg.xesExtensions = .ok exts)
    (htypes : declTypes typed_attributes cfg.types = .ok types)
    (hp : some p ∈ ((buildMappings cfg.eventAttrs).map Prod.fst ++
      (buildMappings cfg.traceAttrs).map Prod.fst).map Prod.fst)
    (hne : p ≠ "") (hunk : alookup exts p = none) :
    ∃ q, alookup exts q = none ∧
      some q ∈ ((buildMappings cfg.eventAttrs).map Prod.fst ++
        (buildMappings cfg.traceAttrs).map Prod.fst).map Prod.fst ∧
      q ≠ "" ∧
      ∀ rs : List Record,
        mainModel gen parse cfg ps0 rs = .error (.unknownExtensionPfx q) := by
  obtain ⟨q, hq1, hq2, hq3, hq4⟩ := buildHeaderGo_unknown exts
    ((buildMappings cfg.eventAttrs).map Prod.fst ++
      (buildMappings cfg.traceAttrs).map Prod.fst) []
    (by intro u hu; cases hu) p hp hne hunk
  refine ⟨q, hq1, hq2, hq3, ?_⟩
  intro rs
  unfold mainModel buildHeader
  simp only [hexts, htypes, hq4]

/-- C10 witness: an event rule targeting myext:foo with no such extension
registered fails with the unknown-prefix error on a nonempty record
stream. -/
theorem c10_unknown_mapping_extension_witness :
    mainModel (fun i => toString i) (fun _ => none)
      ⟨[], [], [("myext:foo", [Tok.lit "x"])], [], [], [], [], false, none⟩
      ⟨[], [], [], [], [], 0⟩ [[("a", "b")]] =
      .error (.unknownExtensionPfx "myext") := by
  obtain ⟨q, hq1, hq2, hq3, hq4⟩ := c10_unknown_mapping_extension_fatal
    (fun i => toString i) (fun _ => none)
    ⟨[], [], [("myext:foo", [Tok.lit "x"])], [], [], [], [], false, none⟩
    ⟨[], [], [], [], [], 0⟩ extensions typed_attributes "myext" rfl rfl
    (by decide) (by decide) (by decide)
  have hq : q = "myext" := by
    simpa [buildMappings, dinsert, alookup, raw_name_to_name,
      splitColon] using hq2
  subst hq
  exact hq4 [[("a", "b")]]

end SomethingToXes
